import Mathlib

set_option maxHeartbeats 1000000

namespace Spec2Proof

/-!
Shallow embedding of the research-idea aggregation engine
(similarity service, embedding service, provider adapters, orchestrator,
queue worker), together with theorems settling the spec claims.

Numbers returned by the JavaScript code are modelled as exact rationals
where only order comparisons occur, and as real numbers where square roots
are taken (cosine similarity).
-/

/-- Matrix entry lookup, modelling the JS `matrix[i][j]`.  All accesses made
by the embedded code are in range for the square matrices it builds; an
out-of-range access is given the default element. -/
def mEntry {α : Type} [Inhabited α] (m : List (List α)) (i j : ℕ) : α :=
  (m.getD i []).getD j default

/-! ### similarityService.js : cosineSimilarity -/

/-- Embedding of `cosineSimilarity(vecA, vecB)`.  The JS function throws on a
dimension mismatch, modelled by `none`. -/
noncomputable def cosineSimilarity (vecA vecB : List ℝ) : Option ℝ :=
  if vecA.length ≠ vecB.length then none
  else
    let dot := (List.zipWith (fun a b => a * b) vecA vecB).sum
    let normA := (vecA.map (fun a => a * a)).sum
    let normB := (vecB.map (fun b => b * b)).sum
    let denominator := Real.sqrt normA * Real.sqrt normB
    if denominator = 0 then some 0
    else some (min 1 (max (-1) (dot / denominator)))

/-- Embedding of `buildSimilarityMatrix(embeddings)`: the n x n matrix with
diagonal 1 and the cosine similarity elsewhere, computed on the upper triangle
and mirrored. -/
noncomputable def buildSimilarityMatrix (embeddings : List (List ℝ)) : List (List ℝ) :=
  let n := embeddings.length
  (List.range n).map fun i =>
    (List.range n).map fun j =>
      if i = j then 1
      else if i < j then (cosineSimilarity (embeddings.getD i []) (embeddings.getD j [])).getD 0
      else (cosineSimilarity (embeddings.getD j []) (embeddings.getD i [])).getD 0

/-! ### similarityService.js : UnionFind -/

structure UnionFind where
  parent : List ℕ
  rank : List ℕ

/-- `new UnionFind(n)`: parent i = i, rank i = 0. -/
def UnionFind.init (n : ℕ) : UnionFind :=
  ⟨List.range n, List.replicate n 0⟩

/-- The recursive `find(x)` with path compression.  The JS recursion
terminates because parent links form a forest; the embedding makes the
recursion structural on an explicit fuel (the number of elements suffices,
as proved below). -/
def findAux : ℕ → List ℕ → ℕ → ℕ × List ℕ
  | 0, p, x => (x, p)
  | fuel + 1, p, x =>
    if p.getD x x = x then (x, p)
    else
      let res := findAux fuel p (p.getD x x)
      (res.1, res.2.set x res.1)

def UnionFind.find (uf : UnionFind) (x : ℕ) : ℕ × UnionFind :=
  let res := findAux uf.parent.length uf.parent x
  (res.1, { uf with parent := res.2 })

/-- `union(x, y)` with union by rank. -/
def UnionFind.union (uf : UnionFind) (x y : ℕ) : UnionFind :=
  let fx := uf.find x
  let px := fx.1
  let uf1 := fx.2
  let fy := uf1.find y
  let py := fy.1
  let uf2 := fy.2
  if px = py then uf2
  else if uf2.rank.getD px 0 < uf2.rank.getD py 0 then
    { uf2 with parent := uf2.parent.set px py }
  else if uf2.rank.getD py 0 < uf2.rank.getD px 0 then
    { uf2 with parent := uf2.parent.set py px }
  else
    { parent := uf2.parent.set py px,
      rank := uf2.rank.set px (uf2.rank.getD px 0 + 1) }

/-! ### similarityService.js : clusterIdeas -/

/-- The pairs (i, j) with i < j < n, in the order of the double loop in
`clusterIdeas`. -/
def upperPairs (n : ℕ) : List (ℕ × ℕ) :=
  (List.range n).flatMap fun i =>
    ((List.range n).filter fun j => i < j).map fun j => (i, j)

/-- The union-find state after processing every above-threshold pair. -/
def clusterUnionFind {α : Type} [Inhabited α] [LinearOrder α]
    (m : List (List α)) (t : α) : UnionFind :=
  (upperPairs m.length).foldl
    (fun uf pr => if t ≤ mEntry m pr.1 pr.2 then uf.union pr.1 pr.2 else uf)
    (UnionFind.init m.length)

structure RenumberState where
  uf : UnionFind
  rootToClusterId : List (ℕ × ℕ)
  nextId : ℕ
  clusterIds : List ℕ

/-- Map insertion-ordered lookup. -/
def lookupRoot (l : List (ℕ × ℕ)) (r : ℕ) : Option ℕ :=
  (l.find? fun pr => pr.1 = r).map Prod.snd

/-- One iteration of the normalisation loop of `clusterIdeas`. -/
def renumberStep (s : RenumberState) (i : ℕ) : RenumberState :=
  let fr := s.uf.find i
  let root := fr.1
  let uf' := fr.2
  match lookupRoot s.rootToClusterId root with
  | some cid =>
      { uf := uf', rootToClusterId := s.rootToClusterId, nextId := s.nextId,
        clusterIds := s.clusterIds ++ [cid] }
  | none =>
      { uf := uf', rootToClusterId := s.rootToClusterId ++ [(root, s.nextId)],
        nextId := s.nextId + 1,
        clusterIds := s.clusterIds ++ [s.nextId] }

/-- Embedding of `clusterIdeas(matrix, threshold)`. -/
def clusterIdeas {α : Type} [Inhabited α] [LinearOrder α]
    (m : List (List α)) (t : α) : List ℕ :=
  let n := m.length
  ((List.range n).foldl renumberStep ⟨clusterUnionFind m t, [], 0, []⟩).clusterIds

/-! ### similarityService.js : deduplicateIdeas -/

structure Idea where
  title : String := ""
  description : String := ""
  rationale : String := ""
  category : String := ""
  confidence_score : ℚ := 0
  novelty_score : ℚ := 0
  tags : List String := []
  provider : String := ""
  llmResponseId : ℕ := 0
  embedding : List ℝ := []

instance : Inhabited Idea := ⟨{}⟩

structure DedupFlags (α : Type) where
  isDup : ℕ → Bool
  dupOf : ℕ → Option ℕ
  simTo : ℕ → Option α

/-- Keys in order of first appearance: the iteration order of a JS `Map`
built by inserting each key as it is encountered. -/
def firstOccurrences {γ : Type} [DecidableEq γ] (l : List γ) : List γ :=
  l.foldl (fun acc c => if c ∈ acc then acc else acc ++ [c]) []

/-- The member indices of cluster c, in increasing order (the order they were
pushed into the bucket). -/
def clusterMembers (clusterIds : List ℕ) (c : ℕ) : List ℕ :=
  (List.range clusterIds.length).filter fun i => clusterIds.getD i 0 = c

/-- All pairs of a member list in the order of the double loop
(mi < mj by position). -/
def pairsOf : List ℕ → List (ℕ × ℕ)
  | [] => []
  | x :: xs => (xs.map fun y => (x, y)) ++ pairsOf xs

/-- The pair scan order of `deduplicateIdeas`: clusters in first-appearance
order, and within a cluster all pairs in index order; singleton clusters are
skipped. -/
def clusterPairs (clusterIds : List ℕ) : List (ℕ × ℕ) :=
  (firstOccurrences clusterIds).flatMap fun c =>
    let members := clusterMembers clusterIds c
    if members.length ≤ 1 then [] else pairsOf members

/-- One pair step of the dedup scan: skip if either side is already flagged,
otherwise on similarity at or above the threshold flag the lower-confidence
side (ties keep i). -/
def dedupStep {α : Type} [Inhabited α] [LinearOrder α]
    (ideas : List Idea) (m : List (List α)) (t : α)
    (st : DedupFlags α) (pr : ℕ × ℕ) : DedupFlags α :=
  let i := pr.1
  let j := pr.2
  if st.isDup i || st.isDup j then st
  else
    let sim := mEntry m i j
    if t ≤ sim then
      let confI := (ideas.getD i default).confidence_score
      let confJ := (ideas.getD j default).confidence_score
      let keepIdx := if confJ ≤ confI then i else j
      let dropIdx := if confJ ≤ confI then j else i
      { isDup := fun k => if k = dropIdx then true else st.isDup k,
        dupOf := fun k => if k = dropIdx then some keepIdx else st.dupOf k,
        simTo := fun k => if k = dropIdx then some sim else st.simTo k }
    else st

def initFlags (α : Type) : DedupFlags α :=
  ⟨fun _ => false, fun _ => none, fun _ => none⟩

def dedupFlags {α : Type} [Inhabited α] [LinearOrder α]
    (ideas : List Idea) (m : List (List α)) (clusterIds : List ℕ) (t : α) : DedupFlags α :=
  (clusterPairs clusterIds).foldl (dedupStep ideas m t) (initFlags α)

structure EnrichedIdea (α : Type) where
  idea : Idea
  _isDuplicate : Bool
  _duplicateOfIdx : Option ℕ
  _similarityToDuplicate : Option α

/-- Embedding of `deduplicateIdeas(ideas, matrix, clusterIds, dedupThreshold)`:
the input ideas in order, each with the three dedup fields attached. -/
def deduplicateIdeas {α : Type} [Inhabited α] [LinearOrder α]
    (ideas : List Idea) (m : List (List α)) (clusterIds : List ℕ) (t : α) :
    List (EnrichedIdea α) :=
  let st := dedupFlags ideas m clusterIds t
  (ideas.zip (List.range ideas.length)).map fun pr =>
    ⟨pr.1, st.isDup pr.2, st.dupOf pr.2, st.simTo pr.2⟩

/-! ### similarityService.js : runSimilarityPipeline -/

structure SimilaritySummary where
  totalIdeas : ℕ
  uniqueIdeas : ℕ
  duplicates : ℕ
  clusters : ℕ

structure SimilarityOutput where
  enrichedIdeas : List (EnrichedIdea ℝ)
  matrix : List (List ℝ)
  clusterIds : List ℕ
  summary : Option SimilaritySummary

/-- Config defaults: CLUSTER_THRESHOLD 0.80 and DEDUP_THRESHOLD 0.85. -/
noncomputable def clusterThresholdR : ℝ := 0.80

noncomputable def dedupThresholdR : ℝ := 0.85

/-- Embedding of `runSimilarityPipeline(ideas)`.  The empty-input early return
produces the empty summary object, modelled as `none`. -/
noncomputable def runSimilarityPipeline (ideas : List Idea) : SimilarityOutput :=
  if ideas.length = 0 then ⟨[], [], [], none⟩
  else
    let embeddings := ideas.map (·.embedding)
    let matrix := buildSimilarityMatrix embeddings
    let clusterIds := clusterIdeas matrix clusterThresholdR
    let enriched := deduplicateIdeas ideas matrix clusterIds dedupThresholdR
    let uniqueIdeas := enriched.filter fun i => !i._isDuplicate
    let duplicates := enriched.filter fun i => i._isDuplicate
    ⟨enriched, matrix, clusterIds,
      some ⟨ideas.length, uniqueIdeas.length, duplicates.length, clusterIds.dedup.length⟩⟩

/-! ### embeddingService.js -/

/-- Embedding of `buildIdeaEmbeddingText(idea)`. -/
def buildIdeaEmbeddingText (idea : Idea) : String :=
  (idea.title ++ ". " ++ idea.description ++ " Tags: " ++
    String.intercalate ", " idea.tags).trim

/-- The details carried by the `EmbeddingError` thrown when a batch fails. -/
structure EmbedFailure where
  batch : ℕ
  totalBatches : ℕ
  textsInBatch : ℕ
  deriving DecidableEq

/-- The JS `response.data.sort((a, b) => a.index - b.index)` on
`{index, embedding}` items. -/
def sortByIndex {β : Type} (l : List (ℕ × β)) : List (ℕ × β) :=
  List.insertionSort (fun a b => a.1 ≤ b.1) l

/-- `Math.ceil(len / bs)` on naturals (bs > 0). -/
def totalBatchesOf (len bs : ℕ) : ℕ := (len + bs - 1) / bs

/-- The batching loop of `generateEmbeddings`: slice off `bs` texts, call the
backend, re-sort its items by index, concatenate.  `i` is the JS loop index
(a multiple of `bs`); `total` is the length of the full input. -/
def generateEmbeddingsGo {β : Type} (bs : ℕ) (hbs : 0 < bs)
    (backend : List String → Except Unit (List (ℕ × β))) (total : ℕ) :
    List String → ℕ → Except EmbedFailure (List β)
  | [], _ => .ok []
  | t :: ts, i =>
    let batch := (t :: ts).take bs
    match backend batch with
    | .error _ => .error ⟨i / bs + 1, totalBatchesOf total bs, batch.length⟩
    | .ok data =>
        match generateEmbeddingsGo bs hbs backend total ((t :: ts).drop bs) (i + bs) with
        | .error e => .error e
        | .ok rest => .ok ((sortByIndex data).map Prod.snd ++ rest)
  termination_by ts _ => ts.length
  decreasing_by
    simp only [List.length_drop, List.length_cons]
    omega

/-- Embedding of `generateEmbeddings(texts)`, with the embedding backend as
an oracle returning `{index, embedding}` items per batch (or failing). -/
def generateEmbeddings {β : Type} (bs : ℕ) (hbs : 0 < bs)
    (backend : List String → Except Unit (List (ℕ × β))) (texts : List String) :
    Except EmbedFailure (List β) :=
  if texts.length = 0 then .ok []
  else generateEmbeddingsGo bs hbs backend texts.length texts 0

/-- The successive batches the embedding loop slices off
(`texts.slice(i, i + batchSize)` for i = 0, bs, 2bs, ...). -/
def batchesOf (bs : ℕ) (hbs : 0 < bs) : List String → List (List String)
  | [] => []
  | t :: ts => (t :: ts).take bs :: batchesOf bs hbs ((t :: ts).drop bs)
  termination_by ts => ts.length
  decreasing_by
    simp only [List.length_drop, List.length_cons]
    omega

/-! ### providers/index.js : partitionProviderResults -/

structure ProviderSuccess where
  provider : String := ""
  ideas : List Idea := []
  latencyMs : ℕ := 0

structure ProviderFailureInfo where
  provider : String
  error : String
  code : String

/-- One settled fan-out outcome: `{provider, status, result}` or
`{provider, status: rejected, error}`.  A fulfilled item with a falsy
`result` is modelled by `fulfilled p none`. -/
inductive SettledOutcome where
  | fulfilled (provider : String) (result : Option ProviderSuccess)
  | rejected (provider : String) (errorMessage : Option String) (errorCode : Option String)

structure PartitionedResults where
  successes : List ProviderSuccess
  failures : List ProviderFailureInfo

/-- Embedding of `partitionProviderResults(settledResults)`. -/
def partitionProviderResults (settledResults : List SettledOutcome) : PartitionedResults :=
  settledResults.foldl
    (fun acc item =>
      match item with
      | .fulfilled _ (some result) =>
          { acc with successes := acc.successes ++ [result] }
      | .fulfilled provider none =>
          { acc with failures := acc.failures ++ [⟨provider, "Unknown error", "UNKNOWN"⟩] }
      | .rejected provider msg code =>
          { acc with failures := acc.failures ++
              [⟨provider, msg.getD "Unknown error", code.getD "UNKNOWN"⟩] })
    ⟨[], []⟩

/-! ### providers/openrouter.js : callOpenRouter retry loop

The network is an oracle mapping the attempt number to what that attempt
observes: a successful validated response, an abort (timeout), an HTTP error
carrying a status, or a response that fails JSON schema validation. -/

inductive ORAttempt where
  | success
  | timeout
  | httpError (status : Option ℕ)
  | parseFailure
  deriving DecidableEq

inductive ORFailure where
  | providerTimeout
  | providerError (status : Option ℕ)
  | rethrownLast
  deriving DecidableEq

structure RetryRun where
  result : Except ORFailure Unit
  attemptsMade : ℕ
  sleepsMs : List ℕ

/-- `(status === 429 || status >= 500)` where a missing status is falsy. -/
def isRetryableStatus : Option ℕ → Bool
  | some v => v = 429 || 500 ≤ v
  | none => false

/-- The `for (attempt = 0; attempt <= maxRetries; attempt++)` loop of
`callOpenRouter`.  `fuel` counts the remaining loop iterations
(`maxRetries + 1 - attempt`); the fuel-0 case is the `throw lastError`
after the loop.  A schema-validation failure is a thrown `ParseError`, which
carries `statusCode = 502`; the catch block computes
`status = err.status || err.statusCode` and tests `status >= 500` before the
`instanceof ParseError` test, so a retried parse failure takes the backoff
branch (sleeping `2^attempt * 1000` ms) and a terminal one falls through to
`throw new ProviderError(..., { status: 502 })`; the dedicated
`instanceof ParseError` retry branch is unreachable. -/
def callOpenRouterGo (oracle : ℕ → ORAttempt) (maxRetries : ℕ) :
    ℕ → ℕ → List ℕ → RetryRun
  | 0, attempt, sleeps => ⟨.error .rethrownLast, attempt, sleeps⟩
  | fuel + 1, attempt, sleeps =>
    match oracle attempt with
    | .success => ⟨.ok (), attempt + 1, sleeps⟩
    | .timeout =>
        if attempt < maxRetries then
          callOpenRouterGo oracle maxRetries fuel (attempt + 1) sleeps
        else ⟨.error .providerTimeout, attempt + 1, sleeps⟩
    | .httpError status =>
        if isRetryableStatus status ∧ attempt < maxRetries then
          callOpenRouterGo oracle maxRetries fuel (attempt + 1)
            (sleeps ++ [2 ^ attempt * 1000])
        else ⟨.error (.providerError status), attempt + 1, sleeps⟩
    | .parseFailure =>
        if attempt < maxRetries then
          callOpenRouterGo oracle maxRetries fuel (attempt + 1)
            (sleeps ++ [2 ^ attempt * 1000])
        else ⟨.error (.providerError (some 502)), attempt + 1, sleeps⟩

/-- Embedding of `callOpenRouter` (retry behaviour). -/
def callOpenRouter (oracle : ℕ → ORAttempt) (maxRetries : ℕ := 2) : RetryRun :=
  callOpenRouterGo oracle maxRetries (maxRetries + 1) 0 []

/-! ### providers grok adapter (Hugging Face variant) : callGrokRaw retry loop -/

inductive GrokAttempt where
  | success
  | timeout
  | failure
  deriving DecidableEq

inductive GrokFailure where
  | providerTimeout
  | providerError
  | rethrownLast
  deriving DecidableEq

structure GrokRun where
  result : Except GrokFailure Unit
  attemptsMade : ℕ
  sleepsMs : List ℕ

/-- The retry loop of `callGrokRaw`: timeouts retry immediately (no backoff)
and are rethrown on the last attempt; every other error retries with
exponential backoff and becomes a `ProviderError` on the last attempt. -/
def callGrokRawGo (oracle : ℕ → GrokAttempt) (maxRetries : ℕ) :
    ℕ → ℕ → List ℕ → GrokRun
  | 0, attempt, sleeps => ⟨.error .rethrownLast, attempt, sleeps⟩
  | fuel + 1, attempt, sleeps =>
    match oracle attempt with
    | .success => ⟨.ok (), attempt + 1, sleeps⟩
    | .timeout =>
        if attempt < maxRetries then
          callGrokRawGo oracle maxRetries fuel (attempt + 1) sleeps
        else ⟨.error .providerTimeout, attempt + 1, sleeps⟩
    | .failure =>
        if attempt < maxRetries then
          callGrokRawGo oracle maxRetries fuel (attempt + 1)
            (sleeps ++ [2 ^ attempt * 1000])
        else ⟨.error .providerError, attempt + 1, sleeps⟩

/-- Embedding of `callGrokRaw` (retry behaviour). -/
def callGrokRaw (oracle : ℕ → GrokAttempt) (maxRetries : ℕ := 2) : GrokRun :=
  callGrokRawGo oracle maxRetries (maxRetries + 1) 0 []

/-! ### sessionRepository.js over an explicit database state -/

structure Metadata where
  sessionId : Option ℕ := none
  jobId : Option String := none
  source : Option String := none
  deriving DecidableEq

structure SessionRow where
  id : ℕ
  problem_statement : String
  metadata : Metadata
  status : String
  deriving DecidableEq

structure LlmResponseRow where
  id : ℕ
  session_id : ℕ
  provider : String
  status : String
  error_message : Option String
  deriving DecidableEq

structure IdeaRow where
  id : ℕ := 0
  session_id : ℕ := 0
  llm_response_id : ℕ := 0
  provider : String := ""
  title : String := ""
  description : String := ""
  rationale : String := ""
  category : String := ""
  confidence_score : ℚ := 0
  novelty_score : ℚ := 0
  tags : List String := []
  cluster_id : ℕ := 0
  is_duplicate : Bool := false
  duplicate_of : Option ℕ := none
  similarity_to_dup : Option ℝ := none
  embedding : Option (List ℝ) := none

structure DeepeningRow where
  id : ℕ
  session_id : ℕ
  idea_id : ℕ
  provider : String
  depth_level : ℕ
  status : String

structure Db where
  sessions : List SessionRow := []
  llmResponses : List LlmResponseRow := []
  ideas : List IdeaRow := []
  deepenings : List DeepeningRow := []
  nextId : ℕ := 0

/-- `createSession`: INSERT a fresh pending session row. -/
def createSession (problem : String) (metadata : Metadata) (db : Db) : SessionRow × Db :=
  let row : SessionRow := ⟨db.nextId, problem, metadata, "pending"⟩
  (row, { db with sessions := db.sessions ++ [row], nextId := db.nextId + 1 })

/-- `updateSessionStatus`. -/
def updateSessionStatus (sessionId : ℕ) (status : String) (db : Db) : Db :=
  { db with sessions := db.sessions.map fun s =>
      if s.id = sessionId then { s with status := status } else s }

/-- `getSessionById` (throws NotFoundError when absent, modelled as `none`). -/
def getSessionById (sessionId : ℕ) (db : Db) : Option SessionRow :=
  db.sessions.find? fun s => s.id = sessionId

/-- `saveLlmResponse`: INSERT a success row, returning its id. -/
def saveLlmResponse (sessionId : ℕ) (pr : ProviderSuccess) (db : Db) : ℕ × Db :=
  (db.nextId,
    { db with
      llmResponses := db.llmResponses ++ [⟨db.nextId, sessionId, pr.provider, "success", none⟩],
      nextId := db.nextId + 1 })

/-- `saveLlmFailure`: INSERT a failed row (non-fatal). -/
def saveLlmFailure (sessionId : ℕ) (f : ProviderFailureInfo) (db : Db) : Db :=
  { db with
    llmResponses := db.llmResponses ++ [⟨db.nextId, sessionId, f.provider, "failed", some f.error⟩],
    nextId := db.nextId + 1 }

/-- `saveIdeas`: bulk INSERT in input order, returning the inserted ids in
that order. -/
def saveIdeas (sessionId llmResponseId : ℕ) (provider : String)
    (ideasIn : List (EnrichedIdea ℝ)) (cids : List ℕ) (db : Db) : List ℕ × Db :=
  if ideasIn.length = 0 then ([], db)
  else
    (ideasIn.zip (List.range ideasIn.length)).foldl
      (fun (acc : List ℕ × Db) pr =>
        let e := pr.1
        let i := pr.2
        let row : IdeaRow :=
          { id := acc.2.nextId, session_id := sessionId, llm_response_id := llmResponseId,
            provider := provider, title := e.idea.title, description := e.idea.description,
            rationale := e.idea.rationale, category := e.idea.category,
            confidence_score := e.idea.confidence_score, novelty_score := e.idea.novelty_score,
            tags := e.idea.tags, cluster_id := cids.getD i 0,
            is_duplicate := e._isDuplicate, duplicate_of := none, similarity_to_dup := none,
            embedding := some e.idea.embedding }
        (acc.1 ++ [acc.2.nextId],
         { acc.2 with ideas := acc.2.ideas ++ [row], nextId := acc.2.nextId + 1 }))
      ([], db)

structure DupUpdate where
  dbId : Option ℕ
  duplicateOfDbId : Option ℕ
  similarityToDuplicate : Option ℝ

/-- `updateDuplicateReferences`: second-pass UPDATE of duplicate links. -/
def updateDuplicateReferences (updates : List DupUpdate) (db : Db) : Db :=
  updates.foldl
    (fun d u =>
      { d with ideas := d.ideas.map fun r =>
          if some r.id = u.dbId then
            { r with duplicate_of := u.duplicateOfDbId,
                     similarity_to_dup := u.similarityToDuplicate }
          else r })
    db

/-- `getSessionIdeas` with `ORDER BY confidence_score DESC, novelty_score DESC`. -/
def getSessionIdeas (sessionId : ℕ) (uniqueOnly : Bool) (db : Db) : List IdeaRow :=
  let rows := db.ideas.filter fun r =>
    r.session_id = sessionId && (!uniqueOnly || !r.is_duplicate)
  List.insertionSort
    (fun a b =>
      b.confidence_score < a.confidence_score ||
        (a.confidence_score = b.confidence_score && b.novelty_score ≤ a.novelty_score))
    rows

/-- `getIdeaById` (NotFoundError modelled as `none`). -/
def getIdeaById (ideaId : ℕ) (db : Db) : Option IdeaRow :=
  db.ideas.find? fun r => r.id = ideaId

structure DeepeningResultData where
  provider : String := ""
  result : String := ""
  promptTokens : ℕ := 0
  completionTokens : ℕ := 0
  latencyMs : ℕ := 0

/-- `saveDeepeningSession`: INSERT one deepening row, return its id. -/
def saveDeepeningSession (sessionId ideaId : ℕ) (dres : DeepeningResultData)
    (depthLevel : ℕ) (db : Db) : ℕ × Db :=
  (db.nextId,
    { db with
      deepenings := db.deepenings ++
        [⟨db.nextId, sessionId, ideaId, dres.provider, depthLevel, "success"⟩],
      nextId := db.nextId + 1 })

/-! ### researchService.js : runResearchPipeline -/

structure AppErrorV where
  message : String
  statusCode : ℕ
  code : String
  deriving DecidableEq

structure PipelineSummary where
  totalIdeasGenerated : ℕ
  uniqueIdeasReturned : ℕ
  duplicatesRemoved : ℕ
  clustersFound : ℕ
  providersSucceeded : ℕ
  providersFailed : ℕ

structure PipelineResult where
  sessionId : ℕ
  status : String
  summary : PipelineSummary
  uniqueIdeas : List IdeaRow
  providerStatus : List (String × String)

/-- Generic insertion-ordered association lookup (first match wins). -/
def lookupAssoc {γ : Type} [DecidableEq γ] (l : List (γ × ℕ)) (k : γ) : Option ℕ :=
  (l.find? fun pr => pr.1 = k).map Prod.snd

/-- Step 3 of the orchestrator: persist one `llm_responses` row per success
and flatten the ideas, each tagged with its provider and response id. -/
def persistSuccesses (sessionId : ℕ) (successes : List ProviderSuccess) (db : Db) :
    List Idea × Db :=
  successes.foldl
    (fun (acc : List Idea × Db) pr =>
      let sv := saveLlmResponse sessionId pr acc.2
      (acc.1 ++ pr.ideas.map (fun idea =>
        { idea with provider := pr.provider, llmResponseId := sv.1 }), sv.2))
    ([], db)

/-- Step 3 of the orchestrator: persist the failure rows. -/
def persistFailures (sessionId : ℕ) (failures : List ProviderFailureInfo) (db : Db) : Db :=
  failures.foldl (fun d f => saveLlmFailure sessionId f d) db

/-- Steps 6-7 of the orchestrator: group the enriched ideas by
(provider, llmResponseId) in first-encounter order, bulk-insert each group,
and return the originalIdx -> database id map. -/
def insertIdeaGroups (sessionId : ℕ) (withIdx : List (EnrichedIdea ℝ × ℕ))
    (clusterIds : List ℕ) (db : Db) : List (ℕ × ℕ) × Db :=
  let keys := firstOccurrences (withIdx.map fun pr =>
    (pr.1.idea.provider, pr.1.idea.llmResponseId))
  keys.foldl
    (fun (acc : List (ℕ × ℕ) × Db) key =>
      let items := withIdx.filter fun pr =>
        pr.1.idea.provider = key.1 && pr.1.idea.llmResponseId = key.2
      let groupIdeas := items.map Prod.fst
      let indices := items.map Prod.snd
      let clusterSubset := indices.map fun i => clusterIds.getD i 0
      let sv := saveIdeas sessionId key.2 key.1 groupIdeas clusterSubset acc.2
      (acc.1 ++ indices.zip sv.1, sv.2))
    ([], db)

/-- The batch size bound used by the orchestrator's embedding call
(config default 100). -/
def embedBatchSizePos : 0 < 100 := by norm_num

/-- Embedding of `runResearchPipeline(problemStatement, metadata)` over the
database state.  The fan-out results and the embedding backend are oracles:
`settledResults` is what `executeAllProviders` resolved to, and
`embedBackend` answers each embedding batch. -/
noncomputable def runResearchPipeline
    (embedBackend : List String → Except Unit (List (ℕ × List ℝ)))
    (settledResults : List SettledOutcome)
    (problemStatement : String) (metadata : Metadata) (db : Db) :
    Except AppErrorV PipelineResult × Db :=
  let cs := createSession problemStatement metadata db
  let sessionId := cs.1.id
  let db1 := updateSessionStatus sessionId "processing" cs.2
  let parts := partitionProviderResults settledResults
  if parts.successes.length = 0 then
    let db2 := updateSessionStatus sessionId "failed" db1
    (.error ⟨"All LLM providers failed. Cannot proceed.", 502, "ALL_PROVIDERS_FAILED"⟩, db2)
  else
    let acc := persistSuccesses sessionId parts.successes db1
    let allIdeas := acc.1
    let db2 := persistFailures sessionId parts.failures acc.2
    let embeddingTexts := allIdeas.map buildIdeaEmbeddingText
    match generateEmbeddings 100 embedBatchSizePos embedBackend embeddingTexts with
    | .error _ =>
        (.error ⟨"Failed to generate embeddings", 502, "EMBEDDING_ERROR"⟩,
         updateSessionStatus sessionId "failed" db2)
    | .ok embeddings =>
        let ideasWithEmbeddings := (allIdeas.zip (List.range allIdeas.length)).map
          fun pr => { pr.1 with embedding := embeddings.getD pr.2 [] }
        let simOut := runSimilarityPipeline ideasWithEmbeddings
        let enriched := simOut.enrichedIdeas
        let withIdx := enriched.zip (List.range enriched.length)
        let ins := insertIdeaGroups sessionId withIdx simOut.clusterIds db2
        let dbIdMap := ins.1
        let db3 := ins.2
        let dupUpdates := (withIdx.map fun pr =>
          DupUpdate.mk (lookupAssoc dbIdMap pr.2)
            (match pr.1._duplicateOfIdx with
             | some k => lookupAssoc dbIdMap k
             | none => none)
            pr.1._similarityToDuplicate).filter
          fun u => u.duplicateOfDbId ≠ none
        let db4 := if dupUpdates.length = 0 then db3
          else updateDuplicateReferences dupUpdates db3
        let db5 := updateSessionStatus sessionId "completed" db4
        let uniqueIdeasRows := getSessionIdeas sessionId true db5
        (.ok
          { sessionId := sessionId, status := "completed",
            summary :=
              { totalIdeasGenerated := allIdeas.length,
                uniqueIdeasReturned := uniqueIdeasRows.length,
                duplicatesRemoved := (simOut.summary.map (·.duplicates)).getD 0,
                clustersFound := (simOut.summary.map (·.clusters)).getD 0,
                providersSucceeded := parts.successes.length,
                providersFailed := parts.failures.length },
            uniqueIdeas := uniqueIdeasRows,
            providerStatus :=
              parts.successes.map (fun s => (s.provider, "success")) ++
              parts.failures.map (fun f => (f.provider, "failed")) },
         db5)

/-! ### researchService.js : deepenIdea -/

structure DeepenOutput where
  deepeningSessionId : ℕ
  sessionId : ℕ
  ideaId : ℕ
  ideaTitle : String
  provider : String
  depthLevel : ℕ
  result : String

/-- Embedding of `deepenIdea(sessionId, ideaId, provider, depthLevel)`.
The chosen provider adapter is an oracle; the third component of the result
counts how many times it was invoked. -/
def deepenIdea (providerCall : Unit → Except AppErrorV DeepeningResultData)
    (sessionId ideaId : ℕ) (depthLevel : ℕ) (db : Db) :
    Except AppErrorV DeepenOutput × Db × ℕ :=
  match getSessionById sessionId db, getIdeaById ideaId db with
  | none, _ => (.error ⟨"Session not found", 404, "NOT_FOUND"⟩, db, 0)
  | some _, none => (.error ⟨"Idea not found", 404, "NOT_FOUND"⟩, db, 0)
  | some _, some idea =>
    if idea.session_id ≠ sessionId then
      (.error ⟨"Idea does not belong to this session", 400, "IDEA_SESSION_MISMATCH"⟩, db, 0)
    else
      match providerCall () with
      | .error e => (.error e, db, 1)
      | .ok dres =>
          let sv := saveDeepeningSession sessionId ideaId dres depthLevel db
          (.ok
            { deepeningSessionId := sv.1, sessionId := sessionId, ideaId := ideaId,
              ideaTitle := idea.title, provider := dres.provider,
              depthLevel := depthLevel, result := dres.result }, sv.2, 1)

/-! ### queue/worker.js : the job processor -/

structure JobData where
  problemStatement : String
  metadata : Metadata

/-- Embedding of the BullMQ worker processor: it forwards the stored job data
to `runResearchPipeline`, merging `jobId` and `source: queue` into the
metadata it passes along. -/
noncomputable def workerProcess
    (embedBackend : List String → Except Unit (List (ℕ × List ℝ)))
    (settledResults : List SettledOutcome)
    (job : JobData) (jobId : String) (db : Db) :
    Except AppErrorV PipelineResult × Db :=
  runResearchPipeline embedBackend settledResults job.problemStatement
    { job.metadata with jobId := some jobId, source := some "queue" } db

instance {α : Type} : Inhabited (EnrichedIdea α) :=
  ⟨⟨default, false, none, none⟩⟩

/-! ### Analysis of the union-find forest (used by the clustering theorems) -/

/-- One parent-pointer step; an out-of-range index is its own parent. -/
def pstep (p : List ℕ) (x : ℕ) : ℕ := p.getD x x

/-- A root is its own parent. -/
def isRoot (p : List ℕ) (x : ℕ) : Prop := pstep p x = x

/-- Root lookup without compression, with explicit fuel. -/
def rootAux : ℕ → List ℕ → ℕ → ℕ
  | 0, _, x => x
  | fuel + 1, p, x => if pstep p x = x then x else rootAux fuel p (pstep p x)

/-- The root of x in the parent forest (fuel = size suffices under the
union-find invariant). -/
def rootD (p : List ℕ) (x : ℕ) : ℕ := rootAux p.length p x

/-- Reachability along parent pointers. -/
def Reach (p : List ℕ) (x y : ℕ) : Prop := ∃ k, (pstep p)^[k] x = y

/-- The union-find invariant: ranks sized like parents, in-range parent
pointers, and strictly increasing rank along non-root parent links. -/
def UFInv (u : UnionFind) : Prop :=
  u.rank.length = u.parent.length ∧
  (∀ x, x < u.parent.length → pstep u.parent x < u.parent.length) ∧
  (∀ x, x < u.parent.length → ¬ isRoot u.parent x →
    u.rank.getD x 0 < u.rank.getD (pstep u.parent x) 0)

/-- The claim's connectivity notion: a path i = k0, k1, ..., kn = j of idea
indices with every adjacent matrix entry at least the threshold. -/
def PathConn {α : Type} [Inhabited α] [LinearOrder α]
    (m : List (List α)) (t : α) (i j : ℕ) : Prop :=
  ∃ ks : List ℕ, ks.head? = some i ∧ ks.getLast? = some j ∧
    (∀ x ∈ ks, x < m.length) ∧ List.Chain' (fun a b => t ≤ mEntry m a b) ks

/-! ### Derived predicates used in theorem statements -/

/-- Which openrouter attempt outcomes lead to a retry (when attempts remain):
timeouts, schema-validation failures, and HTTP 429 / >= 500. -/
def orRetriedB : ORAttempt → Bool
  | .success => false
  | .timeout => true
  | .httpError s => isRetryableStatus s
  | .parseFailure => true

/-- Which openrouter attempt outcomes sleep with exponential backoff before
the retry: HTTP 429 / >= 500, and schema-validation failures (a `ParseError`
carries `statusCode = 502` and the catch tests `status >= 500` before
`instanceof ParseError`).  Only timeouts retry without a sleep. -/
def orSleptB : ORAttempt → Bool
  | .httpError s => isRetryableStatus s
  | .parseFailure => true
  | _ => false

/-- Position of the first occurrence of `r` in a list (length if absent);
used to describe the contiguous renumbering of `clusterIdeas`. -/
def posIn : List ℕ → ℕ → ℕ
  | [], _ => 0
  | d :: ds, r => if d = r then 0 else posIn ds r + 1

/-! ## Theorems -/

/-! ### C6 : cosine similarity -/

lemma sum_sq_nonneg (a : List ℝ) : 0 ≤ (a.map fun x => x * x).sum := by
  apply List.sum_nonneg
  intro x hx
  rcases List.mem_map.mp hx with ⟨y, _, rfl⟩
  exact mul_self_nonneg y

lemma cosineSimilarity_eq (a b : List ℝ) (h : a.length = b.length) :
    cosineSimilarity a b =
      (if Real.sqrt ((a.map fun x => x * x).sum) *
            Real.sqrt ((b.map fun x => x * x).sum) = 0
       then some 0
       else some (min 1 (max (-1) ((List.zipWith (fun x y => x * y) a b).sum /
         (Real.sqrt ((a.map fun x => x * x).sum) *
           Real.sqrt ((b.map fun x => x * x).sum)))))) := by
  unfold cosineSimilarity
  rw [if_neg (by simp [h])]

lemma cosineSimilarity_self (a : List ℝ) :
    cosineSimilarity a a =
      (if (a.map fun x => x * x).sum = 0 then some 0 else some 1) := by
  have hs : 0 ≤ (a.map fun x => x * x).sum := sum_sq_nonneg a
  rw [cosineSimilarity_eq a a rfl]
  have hz : List.zipWith (fun x y => x * y) a a = a.map fun x => x * x :=
    List.zipWith_same (fun x y => x * y) a
  have hd : Real.sqrt ((a.map fun x => x * x).sum) *
      Real.sqrt ((a.map fun x => x * x).sum) = (a.map fun x => x * x).sum :=
    Real.mul_self_sqrt hs
  rw [hz, hd]
  by_cases h0 : (a.map fun x => x * x).sum = 0
  · rw [if_pos h0, if_pos h0]
  · rw [if_neg h0, if_neg h0, div_self h0]
    norm_num

/-- Claim C6: the claim asserts `cosineSimilarity(a, a) = 1` for every vector
`a`; the code returns 0 for the zero-norm vector `[0]`, so the claim as
stated is false. -/
theorem C6_cosine_self_counterexample :
    cosineSimilarity [(0 : ℝ)] [(0 : ℝ)] = some 0 ∧
      (some (0 : ℝ) ≠ some (1 : ℝ)) := by
  constructor
  · rw [cosineSimilarity_self]
    simp
  · simp

/-- Claim C6 (amended): for vectors of equal length, cosine similarity is
symmetric, its result always lies in [-1, 1], a zero-norm self-comparison
yields 0, and `cosineSimilarity(a, a) = 1` whenever `a` has nonzero norm. -/
theorem C6_cosine_properties (a b : List ℝ) (h : a.length = b.length) :
    cosineSimilarity a b = cosineSimilarity b a ∧
    (∀ r : ℝ, cosineSimilarity a b = some r → -1 ≤ r ∧ r ≤ 1) ∧
    ((a.map fun x => x * x).sum = 0 → cosineSimilarity a a = some 0) ∧
    ((a.map fun x => x * x).sum ≠ 0 → cosineSimilarity a a = some 1) := by
  refine ⟨?_, ?_, ?_, ?_⟩
  · rw [cosineSimilarity_eq a b h, cosineSimilarity_eq b a h.symm]
    have hz : List.zipWith (fun x y => x * y) a b = List.zipWith (fun x y => x * y) b a :=
      List.zipWith_comm_of_comm _ mul_comm a b
    rw [hz, mul_comm (Real.sqrt ((a.map fun x => x * x).sum))
      (Real.sqrt ((b.map fun x => x * x).sum))]
  · intro r hr
    rw [cosineSimilarity_eq a b h] at hr
    by_cases hd : Real.sqrt ((a.map fun x => x * x).sum) *
        Real.sqrt ((b.map fun x => x * x).sum) = 0
    · rw [if_pos hd] at hr
      have : r = 0 := by simpa using hr.symm
      norm_num [this]
    · rw [if_neg hd] at hr
      have hrv : r = min 1 (max (-1)
          ((List.zipWith (fun x y => x * y) a b).sum /
            (Real.sqrt ((a.map fun x => x * x).sum) *
              Real.sqrt ((b.map fun x => x * x).sum)))) := by
        simpa using hr.symm
      constructor
      · rw [hrv]
        exact le_min (by norm_num) (le_max_left _ _)
      · rw [hrv]
        exact min_le_left _ _
  · intro h0
    rw [cosineSimilarity_self, if_pos h0]
  · intro h0
    rw [cosineSimilarity_self, if_neg h0]

/-- Witness for C6 at the concrete vectors [1] and [2]. -/
theorem C6_cosine_properties_witness :
    ([(1 : ℝ)].length = [(2 : ℝ)].length) ∧
      cosineSimilarity [(1 : ℝ)] [(2 : ℝ)] = cosineSimilarity [(2 : ℝ)] [(1 : ℝ)] := by
  have h : ([(1 : ℝ)].length = [(2 : ℝ)].length) := by simp
  exact ⟨h, (C6_cosine_properties [(1 : ℝ)] [(2 : ℝ)] h).1⟩

/-! ### C4 : provider retry policy -/

lemma callOpenRouterGo_spec (oracle : ℕ → ORAttempt) (maxRetries : ℕ) :
    ∀ fuel attempt sleeps, attempt + fuel = maxRetries + 1 → attempt ≤ maxRetries →
      (attempt < (callOpenRouterGo oracle maxRetries fuel attempt sleeps).attemptsMade ∧
        (callOpenRouterGo oracle maxRetries fuel attempt sleeps).attemptsMade ≤ maxRetries + 1) ∧
      (∀ k, attempt ≤ k →
        k + 1 < (callOpenRouterGo oracle maxRetries fuel attempt sleeps).attemptsMade →
        orRetriedB (oracle k) = true) ∧
      (callOpenRouterGo oracle maxRetries fuel attempt sleeps).sleepsMs =
        sleeps ++ ((List.range' attempt
            ((callOpenRouterGo oracle maxRetries fuel attempt sleeps).attemptsMade - 1 - attempt)).filter
          (fun k => orSleptB (oracle k))).map (fun k => 2 ^ k * 1000) := by
  intro fuel
  induction fuel with
  | zero => intro attempt sleeps h1 h2; omega
  | succ fuel ih =>
    intro attempt sleeps h1 h2
    cases horacle : oracle attempt with
    | success =>
      simp only [callOpenRouterGo, horacle]
      refine ⟨⟨by omega, by omega⟩, ?_, ?_⟩
      · intro k hk hlt
        omega
      · simp
    | timeout =>
      by_cases hlt : attempt < maxRetries
      · simp only [callOpenRouterGo, horacle, if_pos hlt]
        obtain ⟨⟨ih1, ih2⟩, ih3, ih4⟩ := ih (attempt + 1) sleeps (by omega) (by omega)
        refine ⟨⟨by omega, ih2⟩, ?_, ?_⟩
        · intro k hk hklt
          rcases Nat.eq_or_lt_of_le hk with heq | hgt
          · rw [← heq, horacle]; rfl
          · exact ih3 k (by omega) hklt
        · have hn : (callOpenRouterGo oracle maxRetries fuel (attempt + 1) sleeps).attemptsMade
              - 1 - attempt =
              ((callOpenRouterGo oracle maxRetries fuel (attempt + 1) sleeps).attemptsMade
                - 1 - (attempt + 1)) + 1 := by omega
          rw [hn, List.range'_succ, List.filter_cons]
          have : orSleptB (oracle attempt) = false := by rw [horacle]; rfl
          rw [this]
          simpa using ih4
      · simp only [callOpenRouterGo, horacle, if_neg hlt]
        refine ⟨⟨by omega, by omega⟩, ?_, ?_⟩
        · intro k hk hklt
          omega
        · simp
    | httpError status =>
      by_cases hcond : isRetryableStatus status = true ∧ attempt < maxRetries
      · simp only [callOpenRouterGo, horacle, if_pos hcond]
        obtain ⟨⟨ih1, ih2⟩, ih3, ih4⟩ :=
          ih (attempt + 1) (sleeps ++ [2 ^ attempt * 1000]) (by omega) (by omega)
        refine ⟨⟨by omega, ih2⟩, ?_, ?_⟩
        · intro k hk hklt
          rcases Nat.eq_or_lt_of_le hk with heq | hgt
          · rw [← heq, horacle]
            simpa [orRetriedB] using hcond.1
          · exact ih3 k (by omega) hklt
        · have hn : (callOpenRouterGo oracle maxRetries fuel (attempt + 1)
              (sleeps ++ [2 ^ attempt * 1000])).attemptsMade - 1 - attempt =
              ((callOpenRouterGo oracle maxRetries fuel (attempt + 1)
                (sleeps ++ [2 ^ attempt * 1000])).attemptsMade - 1 - (attempt + 1)) + 1 := by
            omega
          rw [hn, List.range'_succ, List.filter_cons]
          have : orSleptB (oracle attempt) = true := by
            rw [horacle]; simpa [orSleptB] using hcond.1
          rw [this]
          simp only [List.map_cons, if_pos rfl]
          rw [ih4, List.append_assoc]
          rfl
      · simp only [callOpenRouterGo, horacle, if_neg hcond]
        refine ⟨⟨by omega, by omega⟩, ?_, ?_⟩
        · intro k hk hklt
          omega
        · simp
    | parseFailure =>
      by_cases hlt : attempt < maxRetries
      · simp only [callOpenRouterGo, horacle, if_pos hlt]
        obtain ⟨⟨ih1, ih2⟩, ih3, ih4⟩ :=
          ih (attempt + 1) (sleeps ++ [2 ^ attempt * 1000]) (by omega) (by omega)
        refine ⟨⟨by omega, ih2⟩, ?_, ?_⟩
        · intro k hk hklt
          rcases Nat.eq_or_lt_of_le hk with heq | hgt
          · rw [← heq, horacle]; rfl
          · exact ih3 k (by omega) hklt
        · have hn : (callOpenRouterGo oracle maxRetries fuel (attempt + 1)
              (sleeps ++ [2 ^ attempt * 1000])).attemptsMade - 1 - attempt =
              ((callOpenRouterGo oracle maxRetries fuel (attempt + 1)
                (sleeps ++ [2 ^ attempt * 1000])).attemptsMade - 1 - (attempt + 1)) + 1 := by
            omega
          rw [hn, List.range'_succ, List.filter_cons]
          have : orSleptB (oracle attempt) = true := by rw [horacle]; rfl
          rw [this]
          simp only [List.map_cons, if_pos rfl]
          rw [ih4, List.append_assoc]
          rfl
      · simp only [callOpenRouterGo, horacle, if_neg hlt]
        refine ⟨⟨by omega, by omega⟩, ?_, ?_⟩
        · intro k hk hklt
          omega
        · simp

lemma callGrokRawGo_spec (oracle : ℕ → GrokAttempt) (maxRetries : ℕ) :
    ∀ fuel attempt sleeps, attempt + fuel = maxRetries + 1 → attempt ≤ maxRetries →
      (attempt < (callGrokRawGo oracle maxRetries fuel attempt sleeps).attemptsMade ∧
        (callGrokRawGo oracle maxRetries fuel attempt sleeps).attemptsMade ≤ maxRetries + 1) ∧
      (∀ k, attempt ≤ k →
        k + 1 < (callGrokRawGo oracle maxRetries fuel attempt sleeps).attemptsMade →
        oracle k ≠ GrokAttempt.success) ∧
      (callGrokRawGo oracle maxRetries fuel attempt sleeps).sleepsMs =
        sleeps ++ ((List.range' attempt
            ((callGrokRawGo oracle maxRetries fuel attempt sleeps).attemptsMade - 1 - attempt)).filter
          (fun k => oracle k = GrokAttempt.failure)).map (fun k => 2 ^ k * 1000) := by
  intro fuel
  induction fuel with
  | zero => intro attempt sleeps h1 h2; omega
  | succ fuel ih =>
    intro attempt sleeps h1 h2
    cases horacle : oracle attempt with
    | success =>
      simp only [callGrokRawGo, horacle]
      refine ⟨⟨by omega, by omega⟩, ?_, by simp⟩
      intro k hk hlt
      omega
    | timeout =>
      by_cases hlt : attempt < maxRetries
      · simp only [callGrokRawGo, horacle, if_pos hlt]
        obtain ⟨⟨ih1, ih2⟩, ih3, ih4⟩ := ih (attempt + 1) sleeps (by omega) (by omega)
        refine ⟨⟨by omega, ih2⟩, ?_, ?_⟩
        · intro k hk hklt
          rcases Nat.eq_or_lt_of_le hk with heq | hgt
          · rw [← heq, horacle]; simp
          · exact ih3 k (by omega) hklt
        · have hn : (callGrokRawGo oracle maxRetries fuel (attempt + 1) sleeps).attemptsMade
              - 1 - attempt =
              ((callGrokRawGo oracle maxRetries fuel (attempt + 1) sleeps).attemptsMade
                - 1 - (attempt + 1)) + 1 := by omega
          rw [hn, List.range'_succ, List.filter_cons]
          have : decide (oracle attempt = GrokAttempt.failure) = false := by
            rw [horacle]; rfl
          rw [this]
          simpa using ih4
      · simp only [callGrokRawGo, horacle, if_neg hlt]
        refine ⟨⟨by omega, by omega⟩, ?_, by simp⟩
        intro k hk hklt
        omega
    | failure =>
      by_cases hlt : attempt < maxRetries
      · simp only [callGrokRawGo, horacle, if_pos hlt]
        obtain ⟨⟨ih1, ih2⟩, ih3, ih4⟩ :=
          ih (attempt + 1) (sleeps ++ [2 ^ attempt * 1000]) (by omega) (by omega)
        refine ⟨⟨by omega, ih2⟩, ?_, ?_⟩
        · intro k hk hklt
          rcases Nat.eq_or_lt_of_le hk with heq | hgt
          · rw [← heq, horacle]; simp
          · exact ih3 k (by omega) hklt
        · have hn : (callGrokRawGo oracle maxRetries fuel (attempt + 1)
              (sleeps ++ [2 ^ attempt * 1000])).attemptsMade - 1 - attempt =
              ((callGrokRawGo oracle maxRetries fuel (attempt + 1)
                (sleeps ++ [2 ^ attempt * 1000])).attemptsMade - 1 - (attempt + 1)) + 1 := by
            omega
          rw [hn, List.range'_succ, List.filter_cons]
          have : decide (oracle attempt = GrokAttempt.failure) = true := by
            rw [horacle]; rfl
          rw [this]
          simp only [List.map_cons]
          rw [ih4, List.append_assoc]
          rfl
      · simp only [callGrokRawGo, horacle, if_neg hlt]
        refine ⟨⟨by omega, by omega⟩, ?_, by simp⟩
        intro k hk hklt
        omega

/-- Claim C4: the claim asserts that every retried attempt k waits
2^k * 1000 ms before the next try, including retries after a timeout.  In the
code a timeout is retried immediately: with the first attempt timing out and
the second succeeding, no sleep at all is recorded, whereas the claim demands
a 1000 ms backoff. -/
theorem C4_retry_counterexample :
    (callOpenRouter (fun k => if k = 0 then ORAttempt.timeout else ORAttempt.success)).result
        = Except.ok () ∧
    (callOpenRouter (fun k => if k = 0 then ORAttempt.timeout else ORAttempt.success)).attemptsMade
        = 2 ∧
    (callOpenRouter (fun k => if k = 0 then ORAttempt.timeout else ORAttempt.success)).sleepsMs
        = [] ∧
    ([] : List ℕ) ≠ [2 ^ 0 * 1000] := by
  refine ⟨rfl, rfl, rfl, by simp⟩

/-- Claim C4 (amended): each adapter call makes at most three attempts.  For
the openrouter adapter, every non-final attempt ended in a timeout, a parse
failure, or a retryable HTTP status (429 or >= 500) - any other client error
is terminal - and backoff sleeps of 2^k * 1000 ms are inserted exactly for
the retried attempts that failed with a retryable HTTP status or a parse
failure (a ParseError carries statusCode 502, so the status >= 500 test
catches it before the instanceof ParseError test); only timeouts are retried
immediately with no sleep.  For the Hugging Face grok adapter, every
non-final attempt was a timeout or a failure, and backoff sleeps are
inserted exactly for the retried non-timeout failures. -/
theorem C4_retry_policy (oracle : ℕ → ORAttempt) (goracle : ℕ → GrokAttempt) :
    ((callOpenRouter oracle).attemptsMade ≤ 3 ∧
      (∀ k, k + 1 < (callOpenRouter oracle).attemptsMade → orRetriedB (oracle k) = true) ∧
      (callOpenRouter oracle).sleepsMs =
        ((List.range ((callOpenRouter oracle).attemptsMade - 1)).filter
          (fun k => orSleptB (oracle k))).map (fun k => 2 ^ k * 1000)) ∧
    ((callGrokRaw goracle).attemptsMade ≤ 3 ∧
      (∀ k, k + 1 < (callGrokRaw goracle).attemptsMade → goracle k ≠ GrokAttempt.success) ∧
      (callGrokRaw goracle).sleepsMs =
        ((List.range ((callGrokRaw goracle).attemptsMade - 1)).filter
          (fun k => goracle k = GrokAttempt.failure)).map (fun k => 2 ^ k * 1000)) := by
  obtain ⟨⟨h1, h2⟩, h3, h4⟩ := callOpenRouterGo_spec oracle 2 3 0 [] (by omega) (by omega)
  obtain ⟨⟨g1, g2⟩, g3, g4⟩ := callGrokRawGo_spec goracle 2 3 0 [] (by omega) (by omega)
  refine ⟨⟨h2, fun k hk => h3 k (Nat.zero_le k) hk, ?_⟩,
          ⟨g2, fun k hk => g3 k (Nat.zero_le k) hk, ?_⟩⟩
  · rw [List.range_eq_range']
    simpa using h4
  · rw [List.range_eq_range']
    simpa using g4

/-! ### C9 : deepen session/idea mismatch -/

/-- Claim C9: when the session and the idea both exist but the idea belongs to
a different session, `deepenIdea` fails with IDEA_SESSION_MISMATCH (HTTP 400),
the database is unchanged, and the provider adapter is never invoked. -/
theorem C9_deepen_mismatch (providerCall : Unit → Except AppErrorV DeepeningResultData)
    (sessionId ideaId depthLevel : ℕ) (db : Db) (session : SessionRow) (idea : IdeaRow)
    (hs : getSessionById sessionId db = some session)
    (hi : getIdeaById ideaId db = some idea)
    (hm : idea.session_id ≠ sessionId) :
    deepenIdea providerCall sessionId ideaId depthLevel db =
      (.error ⟨"Idea does not belong to this session", 400, "IDEA_SESSION_MISMATCH"⟩, db, 0) := by
  unfold deepenIdea
  rw [hs, hi]
  simp [hm]

/-- Witness for C9: one session (id 0) and one idea (id 1) that belongs to
session 5; deepening idea 1 against session 0 is rejected with no state
change and no provider call. -/
theorem C9_deepen_mismatch_witness :
    deepenIdea (fun _ => .ok {})
        0 1 1 { sessions := [⟨0, "p", {}, "completed"⟩],
                ideas := [{ id := 1, session_id := 5 }], nextId := 9 } =
      (.error ⟨"Idea does not belong to this session", 400, "IDEA_SESSION_MISMATCH"⟩,
        { sessions := [⟨0, "p", {}, "completed"⟩],
          ideas := [{ id := 1, session_id := 5 }], nextId := 9 }, 0) := by
  exact C9_deepen_mismatch (fun _ => .ok {}) 0 1 1
    { sessions := [⟨0, "p", {}, "completed"⟩],
      ideas := [{ id := 1, session_id := 5 }], nextId := 9 }
    ⟨0, "p", {}, "completed"⟩ { id := 1, session_id := 5 } rfl rfl (by decide)

/-! ### C10 : deduplication is a frame-preserving enrichment -/

/-- Claim C10: `deduplicateIdeas` returns exactly the input ideas in order,
each unchanged and merely wrapped with the three dedup fields; consequently
the pipeline summary satisfies uniqueIdeas + duplicates = totalIdeas, with
totalIdeas the number of input ideas. -/
theorem C10_dedup_frame (ideas : List Idea) (s : SimilaritySummary)
    (hs : (runSimilarityPipeline ideas).summary = some s) :
    (∀ {α : Type} [Inhabited α] [LinearOrder α] (ideasA : List Idea)
        (m : List (List α)) (cids : List ℕ) (t : α),
        (deduplicateIdeas ideasA m cids t).map (fun e => e.idea) = ideasA) ∧
    s.uniqueIdeas + s.duplicates = s.totalIdeas ∧ s.totalIdeas = ideas.length := by
  have frame : ∀ {α : Type} [Inhabited α] [LinearOrder α] (ideasA : List Idea)
      (m : List (List α)) (cids : List ℕ) (t : α),
      (deduplicateIdeas ideasA m cids t).map (fun e => e.idea) = ideasA := by
    intro α _ _ ideasA m cids t
    unfold deduplicateIdeas
    rw [List.map_map]
    exact List.map_fst_zip ideasA (List.range ideasA.length) (by simp)
  have key : s.uniqueIdeas + s.duplicates = s.totalIdeas ∧ s.totalIdeas = ideas.length := by
    unfold runSimilarityPipeline at hs
    by_cases h0 : ideas.length = 0
    · rw [if_pos h0] at hs
      exact absurd hs (by simp)
    · rw [if_neg h0] at hs
      simp only [Option.some_inj] at hs
      set enr := deduplicateIdeas ideas
        (buildSimilarityMatrix (ideas.map (·.embedding)))
        (clusterIdeas (buildSimilarityMatrix (ideas.map (·.embedding))) clusterThresholdR)
        dedupThresholdR with henr
      have hlen : enr.length = ideas.length := by
        have := congrArg List.length (frame ideas
          (buildSimilarityMatrix (ideas.map (·.embedding)))
          (clusterIdeas (buildSimilarityMatrix (ideas.map (·.embedding))) clusterThresholdR)
          dedupThresholdR)
        simpa [henr] using this
      have hsplit := List.length_eq_length_filter_add (l := enr)
        (fun e => e._isDuplicate)
      rw [← hs]
      refine ⟨?_, rfl⟩
      simp only
      omega
  exact ⟨frame, key.1, key.2⟩

/-- Witness for C10 at a single default idea: the summary is 1 total,
1 unique, 0 duplicates. -/
theorem C10_dedup_frame_witness :
    (runSimilarityPipeline [(default : Idea)]).summary = some ⟨1, 1, 0, 1⟩ ∧
      (1 : ℕ) + 0 = 1 := by
  have hs : (runSimilarityPipeline [(default : Idea)]).summary = some ⟨1, 1, 0, 1⟩ := rfl
  exact ⟨hs, (C10_dedup_frame [(default : Idea)] ⟨1, 1, 0, 1⟩ hs).2.1⟩

/-! ### C1 : deduplication invariants -/

lemma dedupStep_inv {α : Type} [Inhabited α] [LinearOrder α]
    (ideas : List Idea) (m : List (List α)) (t : α) (st : DedupFlags α)
    (p : ℕ × ℕ) (hp : p.1 ≠ p.2)
    (hinv : ∀ i, st.isDup i = true → ∃ j, st.dupOf i = some j ∧ j ≠ i ∧
      (ideas.getD i default).confidence_score ≤ (ideas.getD j default).confidence_score ∧
      ∃ s, st.simTo i = some s ∧ t ≤ s ∧ (s = mEntry m i j ∨ s = mEntry m j i)) :
    ∀ i, (dedupStep ideas m t st p).isDup i = true →
      ∃ j, (dedupStep ideas m t st p).dupOf i = some j ∧ j ≠ i ∧
      (ideas.getD i default).confidence_score ≤ (ideas.getD j default).confidence_score ∧
      ∃ s, (dedupStep ideas m t st p).simTo i = some s ∧ t ≤ s ∧
        (s = mEntry m i j ∨ s = mEntry m j i) := by
  intro i hdup
  unfold dedupStep at *
  by_cases hskip : st.isDup p.1 || st.isDup p.2
  · rw [if_pos hskip] at hdup ⊢
    exact hinv i hdup
  · rw [if_neg hskip] at hdup ⊢
    by_cases hsim : t ≤ mEntry m p.1 p.2
    · rw [if_pos hsim] at hdup ⊢
      simp only at hdup ⊢
      by_cases hconf : (ideas.getD p.2 default).confidence_score ≤
          (ideas.getD p.1 default).confidence_score
      · simp only [if_pos hconf] at hdup ⊢
        by_cases hip : i = p.2
        · rw [hip] at hdup ⊢
          simp only [if_pos rfl] at hdup ⊢
          exact ⟨p.1, rfl, hp, hconf,
            ⟨mEntry m p.1 p.2, rfl, hsim, Or.inr rfl⟩⟩
        · simp only [if_neg hip] at hdup ⊢
          exact hinv i hdup
      · simp only [if_neg hconf] at hdup ⊢
        by_cases hip : i = p.1
        · rw [hip] at hdup ⊢
          simp only [if_pos rfl] at hdup ⊢
          exact ⟨p.2, rfl, Ne.symm hp, le_of_lt (lt_of_not_le hconf),
            ⟨mEntry m p.1 p.2, rfl, hsim, Or.inl rfl⟩⟩
        · simp only [if_neg hip] at hdup ⊢
          exact hinv i hdup
    · rw [if_neg hsim] at hdup ⊢
      exact hinv i hdup

lemma foldl_dedupStep_inv {α : Type} [Inhabited α] [LinearOrder α]
    (ideas : List Idea) (m : List (List α)) (t : α) :
    ∀ (L : List (ℕ × ℕ)) (st : DedupFlags α), (∀ p ∈ L, p.1 ≠ p.2) →
      (∀ i, st.isDup i = true → ∃ j, st.dupOf i = some j ∧ j ≠ i ∧
        (ideas.getD i default).confidence_score ≤ (ideas.getD j default).confidence_score ∧
        ∃ s, st.simTo i = some s ∧ t ≤ s ∧ (s = mEntry m i j ∨ s = mEntry m j i)) →
      (∀ i, (L.foldl (dedupStep ideas m t) st).isDup i = true →
        ∃ j, (L.foldl (dedupStep ideas m t) st).dupOf i = some j ∧ j ≠ i ∧
        (ideas.getD i default).confidence_score ≤ (ideas.getD j default).confidence_score ∧
        ∃ s, (L.foldl (dedupStep ideas m t) st).simTo i = some s ∧ t ≤ s ∧
          (s = mEntry m i j ∨ s = mEntry m j i)) := by
  intro L
  induction L with
  | nil => intro st _ hinv; exact hinv
  | cons p L ih =>
    intro st hne hinv
    exact ih (dedupStep ideas m t st p) (fun q hq => hne q (List.mem_cons_of_mem p hq))
      (dedupStep_inv ideas m t st p (hne p (List.mem_cons_self p L)) hinv)

lemma pairsOf_fst_lt_snd : ∀ (l : List ℕ), l.Pairwise (· < ·) →
    ∀ p ∈ pairsOf l, p.1 < p.2 := by
  intro l
  induction l with
  | nil => intro _ p hp; simp [pairsOf] at hp
  | cons x xs ih =>
    intro hpw p hp
    rw [pairsOf, List.mem_append] at hp
    rcases hp with hp | hp
    · rcases List.mem_map.mp hp with ⟨y, hy, rfl⟩
      exact (List.pairwise_cons.mp hpw).1 y hy
    · exact ih (List.pairwise_cons.mp hpw).2 p hp

lemma clusterMembers_sorted (cids : List ℕ) (c : ℕ) :
    (clusterMembers cids c).Pairwise (· < ·) := by
  unfold clusterMembers
  exact List.Pairwise.filter _ (List.pairwise_lt_range _)

lemma clusterPairs_ne (cids : List ℕ) : ∀ p ∈ clusterPairs cids, p.1 ≠ p.2 := by
  intro p hp
  unfold clusterPairs at hp
  rcases List.mem_flatMap.mp hp with ⟨c, _, hpc⟩
  simp only at hpc
  by_cases hlen : (clusterMembers cids c).length ≤ 1
  · rw [if_pos hlen] at hpc
    simp at hpc
  · rw [if_neg hlen] at hpc
    exact Nat.ne_of_lt (pairsOf_fst_lt_snd _ (clusterMembers_sorted cids c) p hpc)

/-- Claim C1: the claim asserts that no idea is flagged as a duplicate while
also serving as another idea's duplicate-of target.  With three ideas in one
cluster, confidences 5, 4, 9 and all off-diagonal similarities 9 (threshold 8):
the scan first marks idea 1 as a duplicate of idea 0, and then marks idea 0
itself as a duplicate of idea 2 - idea 0 is both a keeper (for idea 1) and a
flagged duplicate. -/
theorem C1_dedup_counterexample :
    ((deduplicateIdeas
        [{ confidence_score := 5 }, { confidence_score := 4 }, { confidence_score := 9 }]
        [[10, 9, 9], [9, 10, 9], [9, 9, 10]]
        [0, 0, 0] ((8 : ℚ))).getD 1 default)._duplicateOfIdx = some 0 ∧
    ((deduplicateIdeas
        [{ confidence_score := 5 }, { confidence_score := 4 }, { confidence_score := 9 }]
        [[10, 9, 9], [9, 10, 9], [9, 9, 10]]
        [0, 0, 0] ((8 : ℚ))).getD 0 default)._isDuplicate = true := by
  exact ⟨rfl, rfl⟩

/-- Claim C1 (amended): after `deduplicateIdeas`, every flagged duplicate
records a keeper distinct from itself with a confidence score at least its
own, and a recorded similarity at least the dedup threshold which is an
entry of the matrix between the two; the claim's further assertion that a
keeper is never itself flagged does not hold (a keeper may be flagged by a
later pair of the scan). -/
theorem C1_dedup_invariants {α : Type} [Inhabited α] [LinearOrder α]
    (ideas : List Idea) (m : List (List α)) (cids : List ℕ) (t : α) (i : ℕ)
    (hdup : ((deduplicateIdeas ideas m cids t).getD i default)._isDuplicate = true)
    (hi : i < ideas.length) :
    ∃ j, ((deduplicateIdeas ideas m cids t).getD i default)._duplicateOfIdx = some j ∧ j ≠ i ∧
      (ideas.getD i default).confidence_score ≤ (ideas.getD j default).confidence_score ∧
      ∃ s, ((deduplicateIdeas ideas m cids t).getD i default)._similarityToDuplicate = some s ∧
        t ≤ s ∧ (s = mEntry m i j ∨ s = mEntry m j i) := by
  have hget : (deduplicateIdeas ideas m cids t).getD i default =
      ⟨ideas.getD i default, (dedupFlags ideas m cids t).isDup i,
        (dedupFlags ideas m cids t).dupOf i, (dedupFlags ideas m cids t).simTo i⟩ := by
    unfold deduplicateIdeas
    have hlen : i < ((ideas.zip (List.range ideas.length)).map
        (fun pr => (⟨pr.1, (dedupFlags ideas m cids t).isDup pr.2,
          (dedupFlags ideas m cids t).dupOf pr.2,
          (dedupFlags ideas m cids t).simTo pr.2⟩ : EnrichedIdea α))).length := by
      simpa [List.length_zip] using hi
    rw [List.getD_eq_getElem _ _ hlen]
    rw [List.getElem_map, List.getElem_zip, List.getElem_range]
    rw [List.getD_eq_getElem _ _ hi]
  rw [hget] at hdup ⊢
  simp only at hdup ⊢
  have := foldl_dedupStep_inv ideas m t (clusterPairs cids) (initFlags α)
    (clusterPairs_ne cids) (by intro k hk; simp [initFlags] at hk) i
  exact this hdup

/-- Witness for C1 (amended) at the counterexample data, index 1. -/
theorem C1_dedup_invariants_witness :
    (((deduplicateIdeas
        [{ confidence_score := 5 }, { confidence_score := 4 }, { confidence_score := 9 }]
        [[10, 9, 9], [9, 10, 9], [9, 9, 10]]
        [0, 0, 0] ((8 : ℚ))).getD 1 default)._isDuplicate = true ∧
      (1 : ℕ) < 3) ∧
    ∃ j, ((deduplicateIdeas
        [{ confidence_score := 5 }, { confidence_score := 4 }, { confidence_score := 9 }]
        [[10, 9, 9], [9, 10, 9], [9, 9, 10]]
        [0, 0, 0] ((8 : ℚ))).getD 1 default)._duplicateOfIdx = some j ∧ j ≠ 1 ∧
      (([{ confidence_score := 5 }, { confidence_score := 4 },
          { confidence_score := 9 }] : List Idea).getD 1 default).confidence_score ≤
        (([{ confidence_score := 5 }, { confidence_score := 4 },
          { confidence_score := 9 }] : List Idea).getD j default).confidence_score ∧
      ∃ s, ((deduplicateIdeas
          [{ confidence_score := 5 }, { confidence_score := 4 }, { confidence_score := 9 }]
          [[10, 9, 9], [9, 10, 9], [9, 9, 10]]
          [0, 0, 0] ((8 : ℚ))).getD 1 default)._similarityToDuplicate = some s ∧
        (8 : ℚ) ≤ s ∧
        (s = mEntry [[10, 9, 9], [9, 10, 9], [9, 9, 10]] 1 j ∨
         s = mEntry [[10, 9, 9], [9, 10, 9], [9, 9, 10]] j 1) :=
  ⟨⟨rfl, by decide⟩,
    C1_dedup_invariants
      [{ confidence_score := 5 }, { confidence_score := 4 }, { confidence_score := 9 }]
      [[10, 9, 9], [9, 10, 9], [9, 9, 10]]
      [0, 0, 0] ((8 : ℚ)) 1 rfl (by decide)⟩

/-! ### C8 : deduplication scan order and pair action -/

lemma mem_clusterMembers (cids : List ℕ) (c i : ℕ) :
    i ∈ clusterMembers cids c ↔ i < cids.length ∧ cids.getD i 0 = c := by
  unfold clusterMembers
  rw [List.mem_filter, List.mem_range]
  simp

lemma foldl_insert_mem {γ : Type} [DecidableEq γ] (x : γ) :
    ∀ (l acc : List γ),
      (x ∈ l.foldl (fun acc c => if c ∈ acc then acc else acc ++ [c]) acc ↔
        x ∈ acc ∨ x ∈ l) := by
  intro l
  induction l with
  | nil => intro acc; simp
  | cons c l ih =>
    intro acc
    simp only [List.foldl_cons, ih, List.mem_cons]
    by_cases hc : c ∈ acc
    · rw [if_pos hc]
      constructor
      · rintro (h | h)
        · exact Or.inl h
        · exact Or.inr (Or.inr h)
      · rintro (h | h | h)
        · exact Or.inl h
        · rw [h]; exact Or.inl hc
        · exact Or.inr h
    · rw [if_neg hc]
      simp only [List.mem_append, List.mem_singleton]
      tauto

lemma mem_firstOccurrences {γ : Type} [DecidableEq γ] (l : List γ) (x : γ) :
    x ∈ firstOccurrences l ↔ x ∈ l := by
  unfold firstOccurrences
  rw [foldl_insert_mem]
  simp

lemma foldl_insert_nodup {γ : Type} [DecidableEq γ] :
    ∀ (l acc : List γ), acc.Nodup →
      (l.foldl (fun acc c => if c ∈ acc then acc else acc ++ [c]) acc).Nodup := by
  intro l
  induction l with
  | nil => intro acc h; exact h
  | cons c l ih =>
    intro acc h
    simp only [List.foldl_cons]
    by_cases hc : c ∈ acc
    · rw [if_pos hc]; exact ih acc h
    · rw [if_neg hc]
      exact ih _ (by simp [List.nodup_append, h, hc])

lemma firstOccurrences_nodup {γ : Type} [DecidableEq γ] (l : List γ) :
    (firstOccurrences l).Nodup :=
  foldl_insert_nodup l [] List.nodup_nil

lemma mem_of_mem_pairsOf : ∀ (l : List ℕ) (p : ℕ × ℕ), p ∈ pairsOf l →
    p.1 ∈ l ∧ p.2 ∈ l := by
  intro l
  induction l with
  | nil => intro p hp; simp [pairsOf] at hp
  | cons x xs ih =>
    intro p hp
    rw [pairsOf, List.mem_append] at hp
    rcases hp with hp | hp
    · rcases List.mem_map.mp hp with ⟨y, hy, rfl⟩
      exact ⟨List.mem_cons_self x xs, List.mem_cons_of_mem x hy⟩
    · obtain ⟨h1, h2⟩ := ih p hp
      exact ⟨List.mem_cons_of_mem x h1, List.mem_cons_of_mem x h2⟩

lemma mem_pairsOf_of_lt : ∀ (l : List ℕ), l.Pairwise (· < ·) →
    ∀ i j, i ∈ l → j ∈ l → i < j → (i, j) ∈ pairsOf l := by
  intro l
  induction l with
  | nil => intro _ i j hi; simp at hi
  | cons x xs ih =>
    intro hpw i j hi hj hij
    obtain ⟨hx, hxs⟩ := List.pairwise_cons.mp hpw
    rw [pairsOf, List.mem_append]
    rcases List.mem_cons.mp hi with rfl | hi'
    · left
      rcases List.mem_cons.mp hj with rfl | hj'
      · omega
      · exact List.mem_map.mpr ⟨j, hj', rfl⟩
    · right
      rcases List.mem_cons.mp hj with rfl | hj'
      · exact absurd (hx i hi') (by omega)
      · exact ih hxs i j hi' hj' hij

lemma pairsOf_pairwise_lex : ∀ (l : List ℕ), l.Pairwise (· < ·) →
    (pairsOf l).Pairwise
      (fun p q : ℕ × ℕ => p.1 < q.1 ∨ (p.1 = q.1 ∧ p.2 < q.2)) := by
  intro l
  induction l with
  | nil => intro _; simp [pairsOf]
  | cons x xs ih =>
    intro hpw
    obtain ⟨hx, hxs⟩ := List.pairwise_cons.mp hpw
    rw [pairsOf, List.pairwise_append]
    refine ⟨?_, ih hxs, ?_⟩
    · rw [List.pairwise_map]
      exact hxs.imp fun {a b} hab => Or.inr ⟨rfl, hab⟩
    · intro p hp q hq
      rcases List.mem_map.mp hp with ⟨y, _, rfl⟩
      left
      exact hx q.1 (mem_of_mem_pairsOf xs q hq).1

lemma two_mem_length (l : List ℕ) (a b : ℕ) (ha : a ∈ l) (hb : b ∈ l) (hab : a ≠ b) :
    ¬ l.length ≤ 1 := by
  intro hlen
  match l, hlen with
  | [], _ => simp at ha
  | [x], _ =>
    rw [List.mem_singleton] at ha hb
    exact hab (ha.trans hb.symm)

lemma mem_clusterPairs (cids : List ℕ) (i j : ℕ) :
    (i, j) ∈ clusterPairs cids ↔
      i < j ∧ j < cids.length ∧ cids.getD i 0 = cids.getD j 0 := by
  unfold clusterPairs
  rw [List.mem_flatMap]
  constructor
  · rintro ⟨c, _, hpc⟩
    simp only at hpc
    by_cases hlen : (clusterMembers cids c).length ≤ 1
    · rw [if_pos hlen] at hpc
      simp at hpc
    · rw [if_neg hlen] at hpc
      have hlt := pairsOf_fst_lt_snd _ (clusterMembers_sorted cids c) _ hpc
      obtain ⟨h1, h2⟩ := mem_of_mem_pairsOf _ _ hpc
      rw [mem_clusterMembers] at h1 h2
      exact ⟨hlt, h2.1, h1.2.trans h2.2.symm⟩
  · rintro ⟨hij, hj, hcc⟩
    refine ⟨cids.getD i 0, ?_, ?_⟩
    · rw [mem_firstOccurrences]
      have : i < cids.length := lt_trans hij hj
      rcases List.getD_eq_getElem?_getD cids i 0 with h
      have hmem : cids.getD i 0 ∈ cids := by
        rw [List.getD_eq_getElem _ _ this]
        exact List.getElem_mem _
      exact hmem
    · simp only
      have hi : i ∈ clusterMembers cids (cids.getD i 0) :=
        (mem_clusterMembers cids _ i).mpr ⟨lt_trans hij hj, rfl⟩
      have hjm : j ∈ clusterMembers cids (cids.getD i 0) :=
        (mem_clusterMembers cids _ j).mpr ⟨hj, hcc.symm⟩
      rw [if_neg (two_mem_length _ i j hi hjm (Nat.ne_of_lt hij))]
      exact mem_pairsOf_of_lt _ (clusterMembers_sorted cids _) i j hi hjm hij

lemma mem_clusterBlock (cids : List ℕ) (c : ℕ) (p : ℕ × ℕ)
    (hp : p ∈ (if (clusterMembers cids c).length ≤ 1 then []
      else pairsOf (clusterMembers cids c))) :
    cids.getD p.1 0 = c := by
  by_cases hlen : (clusterMembers cids c).length ≤ 1
  · rw [if_pos hlen] at hp
    simp at hp
  · rw [if_neg hlen] at hp
    exact ((mem_clusterMembers cids c p.1).mp (mem_of_mem_pairsOf _ p hp).1).2

lemma clusterPairs_pairwise (cids : List ℕ) :
    (clusterPairs cids).Pairwise
      (fun p q : ℕ × ℕ => cids.getD p.1 0 = cids.getD q.1 0 →
        p.1 < q.1 ∨ (p.1 = q.1 ∧ p.2 < q.2)) := by
  unfold clusterPairs
  rw [List.flatMap_def, List.pairwise_flatten]
  constructor
  · intro l hl
    rcases List.mem_map.mp hl with ⟨c, _, rfl⟩
    simp only
    by_cases hlen : (clusterMembers cids c).length ≤ 1
    · rw [if_pos hlen]
      exact List.Pairwise.nil
    · rw [if_neg hlen]
      refine List.Pairwise.imp ?_ (pairsOf_pairwise_lex _ (clusterMembers_sorted cids c))
      intro p q hpq
      exact fun _ => hpq
  · rw [List.pairwise_map]
    have hnd : (firstOccurrences cids).Pairwise (· ≠ ·) := firstOccurrences_nodup cids
    refine hnd.imp ?_
    intro c c' hcc p hp q hq hsame
    have h1 := mem_clusterBlock cids c p hp
    have h2 := mem_clusterBlock cids c' q hq
    exact absurd (h1.symm.trans (hsame.trans h2)) hcc

/-- Claim C8: the dedup scan considers exactly the pairs (i, j) with i < j
inside a common cluster; within each cluster pairs appear in index order; a
pair is acted on only when neither member is flagged and the similarity
reaches the threshold, in which case the strictly-lower-confidence member is
marked as a duplicate of the other, and on a confidence tie the pair's first
(lower) index i is kept while j is marked. -/
theorem C8_dedup_scan {α : Type} [Inhabited α] [LinearOrder α]
    (ideas : List Idea) (m : List (List α)) (cids : List ℕ) (t : α)
    (st : DedupFlags α) (i j : ℕ) :
    ((i, j) ∈ clusterPairs cids ↔
      i < j ∧ j < cids.length ∧ cids.getD i 0 = cids.getD j 0) ∧
    (clusterPairs cids).Pairwise
      (fun p q : ℕ × ℕ => cids.getD p.1 0 = cids.getD q.1 0 →
        p.1 < q.1 ∨ (p.1 = q.1 ∧ p.2 < q.2)) ∧
    ((st.isDup i = true ∨ st.isDup j = true) → dedupStep ideas m t st (i, j) = st) ∧
    (mEntry m i j < t → dedupStep ideas m t st (i, j) = st) ∧
    (st.isDup i = false → st.isDup j = false → t ≤ mEntry m i j →
      (((ideas.getD j default).confidence_score ≤ (ideas.getD i default).confidence_score →
        (dedupStep ideas m t st (i, j)).isDup j = true ∧
        (dedupStep ideas m t st (i, j)).dupOf j = some i ∧
        (dedupStep ideas m t st (i, j)).simTo j = some (mEntry m i j) ∧
        (∀ k, k ≠ j → (dedupStep ideas m t st (i, j)).isDup k = st.isDup k ∧
          (dedupStep ideas m t st (i, j)).dupOf k = st.dupOf k ∧
          (dedupStep ideas m t st (i, j)).simTo k = st.simTo k)) ∧
      ((ideas.getD i default).confidence_score < (ideas.getD j default).confidence_score →
        (dedupStep ideas m t st (i, j)).isDup i = true ∧
        (dedupStep ideas m t st (i, j)).dupOf i = some j ∧
        (dedupStep ideas m t st (i, j)).simTo i = some (mEntry m i j) ∧
        (∀ k, k ≠ i → (dedupStep ideas m t st (i, j)).isDup k = st.isDup k ∧
          (dedupStep ideas m t st (i, j)).dupOf k = st.dupOf k ∧
          (dedupStep ideas m t st (i, j)).simTo k = st.simTo k)))) := by
  refine ⟨mem_clusterPairs cids i j, clusterPairs_pairwise cids, ?_, ?_, ?_⟩
  · intro hflag
    unfold dedupStep
    have hskip : (st.isDup i || st.isDup j) = true := by
      rcases hflag with h | h <;> simp [h]
    rw [if_pos hskip]
  · intro hlt
    unfold dedupStep
    by_cases hskip : (st.isDup i || st.isDup j) = true
    · rw [if_pos hskip]
    · rw [if_neg hskip]
      simp only
      rw [if_neg (not_le.mpr hlt)]
  · intro hdi hdj hsim
    have hskip : ¬ (st.isDup i || st.isDup j) = true := by simp [hdi, hdj]
    constructor
    · intro hconf
      unfold dedupStep
      rw [if_neg hskip]
      simp only
      rw [if_pos hsim]
      simp only [if_pos hconf]
      refine ⟨by simp, by simp, by simp, ?_⟩
      intro k hk
      simp [if_neg hk]
    · intro hconf
      have hconf' : ¬ (ideas.getD j default).confidence_score ≤
          (ideas.getD i default).confidence_score := not_le.mpr hconf
      unfold dedupStep
      rw [if_neg hskip]
      simp only
      rw [if_pos hsim]
      simp only [if_neg hconf']
      refine ⟨by simp, by simp, by simp, ?_⟩
      intro k hk
      simp [if_neg hk]

/-! ### C2 / C3 : orchestrator state lemmas -/

lemma updateSessionStatus_sessions_ids (sid : ℕ) (st : String) (db : Db) :
    (updateSessionStatus sid st db).sessions.map (fun s => s.id) =
      db.sessions.map (fun s => s.id) := by
  unfold updateSessionStatus
  simp only [List.map_map]
  apply List.map_congr_left
  intro s _
  by_cases h : s.id = sid <;> simp [h]

lemma persistSuccesses_foldl_sessions (sid : ℕ) :
    ∀ (L : List ProviderSuccess) (acc : List Idea × Db),
      ((L.foldl
        (fun (acc : List Idea × Db) pr =>
          let sv := saveLlmResponse sid pr acc.2
          (acc.1 ++ pr.ideas.map (fun idea =>
            { idea with provider := pr.provider, llmResponseId := sv.1 }), sv.2))
        acc).2).sessions = acc.2.sessions := by
  intro L
  induction L with
  | nil => intro acc; rfl
  | cons pr L ih =>
    intro acc
    rw [List.foldl_cons, ih]
    rfl

lemma persistSuccesses_sessions (sid : ℕ) (L : List ProviderSuccess) (db : Db) :
    ((persistSuccesses sid L db).2).sessions = db.sessions :=
  persistSuccesses_foldl_sessions sid L ([], db)

lemma persistFailures_sessions (sid : ℕ) :
    ∀ (L : List ProviderFailureInfo) (db : Db),
      (persistFailures sid L db).sessions = db.sessions := by
  intro L
  induction L with
  | nil => intro db; rfl
  | cons f L ih =>
    intro db
    unfold persistFailures at *
    rw [List.foldl_cons, ih]
    rfl

lemma saveIdeas_sessions (sid rid : ℕ) (prov : String) (L : List (EnrichedIdea ℝ))
    (cids : List ℕ) (db : Db) : ((saveIdeas sid rid prov L cids db).2).sessions = db.sessions := by
  unfold saveIdeas
  by_cases h : L.length = 0
  · rw [if_pos h]
  · rw [if_neg h]
    have aux : ∀ (M : List (EnrichedIdea ℝ × ℕ)) (acc : List ℕ × Db),
        ((M.foldl
          (fun (acc : List ℕ × Db) pr =>
            (acc.1 ++ [acc.2.nextId],
             { acc.2 with
                ideas := acc.2.ideas ++
                  [{ id := acc.2.nextId, session_id := sid, llm_response_id := rid,
                     provider := prov, title := pr.1.idea.title,
                     description := pr.1.idea.description,
                     rationale := pr.1.idea.rationale, category := pr.1.idea.category,
                     confidence_score := pr.1.idea.confidence_score,
                     novelty_score := pr.1.idea.novelty_score,
                     tags := pr.1.idea.tags, cluster_id := cids.getD pr.2 0,
                     is_duplicate := pr.1._isDuplicate, duplicate_of := none,
                     similarity_to_dup := none,
                     embedding := some pr.1.idea.embedding }],
                nextId := acc.2.nextId + 1 })) acc).2).sessions = acc.2.sessions := by
      intro M
      induction M with
      | nil => intro acc; rfl
      | cons x M ih => intro acc; rw [List.foldl_cons, ih]
    exact aux (L.zip (List.range L.length)) ([], db)

lemma insertIdeaGroups_sessions (sid : ℕ) (withIdx : List (EnrichedIdea ℝ × ℕ))
    (cids : List ℕ) (db : Db) :
    ((insertIdeaGroups sid withIdx cids db).2).sessions = db.sessions := by
  unfold insertIdeaGroups
  have aux : ∀ (K : List (String × ℕ)) (acc : List (ℕ × ℕ) × Db),
      ((K.foldl
        (fun (acc : List (ℕ × ℕ) × Db) key =>
          let items := withIdx.filter fun pr =>
            pr.1.idea.provider = key.1 && pr.1.idea.llmResponseId = key.2
          let groupIdeas := items.map Prod.fst
          let indices := items.map Prod.snd
          let clusterSubset := indices.map fun i => cids.getD i 0
          let sv := saveIdeas sid key.2 key.1 groupIdeas clusterSubset acc.2
          (acc.1 ++ indices.zip sv.1, sv.2)) acc).2).sessions = acc.2.sessions := by
    intro K
    induction K with
    | nil => intro acc; rfl
    | cons k K ih =>
      intro acc
      rw [List.foldl_cons, ih]
      simp only
      rw [saveIdeas_sessions]
  exact aux _ ([], db)

lemma updateDuplicateReferences_sessions :
    ∀ (updates : List DupUpdate) (db : Db),
      (updateDuplicateReferences updates db).sessions = db.sessions := by
  intro updates
  induction updates with
  | nil => intro db; rfl
  | cons u updates ih =>
    intro db
    unfold updateDuplicateReferences at *
    rw [List.foldl_cons, ih]

lemma runResearchPipeline_sessions_ids
    (eb : List String → Except Unit (List (ℕ × List ℝ)))
    (sr : List SettledOutcome) (p : String) (md : Metadata) (db : Db) :
    ((runResearchPipeline eb sr p md db).2).sessions.map (fun s => s.id) =
      db.sessions.map (fun s => s.id) ++ [db.nextId] := by
  simp only [runResearchPipeline]
  split
  · rw [updateSessionStatus_sessions_ids, updateSessionStatus_sessions_ids]
    unfold createSession
    simp
  · split
    · rw [updateSessionStatus_sessions_ids, persistFailures_sessions,
        persistSuccesses_sessions, updateSessionStatus_sessions_ids]
      unfold createSession
      simp
    · rw [updateSessionStatus_sessions_ids]
      split
      · rw [insertIdeaGroups_sessions, persistFailures_sessions,
          persistSuccesses_sessions, updateSessionStatus_sessions_ids]
        unfold createSession
        simp
      · rw [updateDuplicateReferences_sessions, insertIdeaGroups_sessions,
          persistFailures_sessions, persistSuccesses_sessions,
          updateSessionStatus_sessions_ids]
        unfold createSession
        simp

lemma runResearchPipeline_all_failed
    (eb : List String → Except Unit (List (ℕ × List ℝ)))
    (sr : List SettledOutcome) (p : String) (md : Metadata) (db : Db)
    (h : (partitionProviderResults sr).successes = []) :
    runResearchPipeline eb sr p md db =
      (.error ⟨"All LLM providers failed. Cannot proceed.", 502, "ALL_PROVIDERS_FAILED"⟩,
       updateSessionStatus db.nextId "failed"
         (updateSessionStatus db.nextId "processing" ((createSession p md db).2))) := by
  simp only [runResearchPipeline]
  rw [if_pos (by rw [h]; rfl)]
  rfl

/-- Claim C2: when every provider outcome is a failure the orchestrator flips
the session to failed and fails with ALL_PROVIDERS_FAILED without inserting
any idea rows - but, contrary to the claim, it does NOT persist the failures:
it throws before reaching the failure-persistence loop, so no llm_responses
row is written.  Here one provider is rejected, yet llmResponses stays
empty. -/
theorem C2_all_failed_counterexample :
    (partitionProviderResults
      [.rejected "grok" (some "boom") (some "PROVIDER_ERROR")]).failures.length = 1 ∧
    ((runResearchPipeline (fun _ => .error ())
        [.rejected "grok" (some "boom") (some "PROVIDER_ERROR")] "p" {} {}).2).llmResponses
      = [] ∧
    (runResearchPipeline (fun _ => .error ())
        [.rejected "grok" (some "boom") (some "PROVIDER_ERROR")] "p" {} {}).1
      = .error ⟨"All LLM providers failed. Cannot proceed.", 502, "ALL_PROVIDERS_FAILED"⟩ := by
  exact ⟨rfl, rfl, rfl⟩

/-- Claim C2 (amended): when every provider outcome is a failure, the
orchestrator fails with ALL_PROVIDERS_FAILED (HTTP 502), the session row it
created is left with status failed, no idea rows are inserted, and no
llm_responses rows (neither success nor failure rows) are persisted - the
failure rows promised by the spec are skipped because the error is thrown
before the persistence loop. -/
theorem C2_all_providers_failed
    (eb : List String → Except Unit (List (ℕ × List ℝ)))
    (sr : List SettledOutcome) (p : String) (md : Metadata) (db : Db)
    (h : (partitionProviderResults sr).successes = [])
    (hfresh : ∀ s ∈ db.sessions, s.id ≠ db.nextId) :
    (runResearchPipeline eb sr p md db).1 =
      .error ⟨"All LLM providers failed. Cannot proceed.", 502, "ALL_PROVIDERS_FAILED"⟩ ∧
    ((runResearchPipeline eb sr p md db).2).sessions =
      db.sessions ++ [⟨db.nextId, p, md, "failed"⟩] ∧
    ((runResearchPipeline eb sr p md db).2).llmResponses = db.llmResponses ∧
    ((runResearchPipeline eb sr p md db).2).ideas = db.ideas := by
  rw [runResearchPipeline_all_failed eb sr p md db h]
  refine ⟨rfl, ?_, rfl, rfl⟩
  unfold createSession updateSessionStatus
  simp only [List.map_append, List.map_map]
  have hup : ∀ (st st' : String),
      db.sessions.map ((fun s => if s.id = db.nextId then { s with status := st } else s) ∘
        (fun s => if s.id = db.nextId then { s with status := st' } else s)) = db.sessions := by
    intro st st'
    have : ∀ s ∈ db.sessions,
        ((fun s => if s.id = db.nextId then { s with status := st } else s) ∘
          (fun s => if s.id = db.nextId then { s with status := st' } else s)) s = id s := by
      intro s hs
      simp [Function.comp, if_neg (hfresh s hs)]
    rw [List.map_congr_left this, List.map_id]
  rw [hup]
  simp

/-- Witness for C2 at a concrete database and a single rejected provider. -/
theorem C2_all_providers_failed_witness :
    ((partitionProviderResults
        [.rejected "gemini" none none]).successes = [] ∧
      (∀ s ∈ ({} : Db).sessions, s.id ≠ ({} : Db).nextId)) ∧
    ((runResearchPipeline (fun _ => .ok [])
        [.rejected "gemini" none none] "prob" {} {}).2).sessions =
      [⟨0, "prob", {}, "failed"⟩] := by
  refine ⟨⟨rfl, by simp⟩, ?_⟩
  have := (C2_all_providers_failed (fun _ => .ok [])
    [.rejected "gemini" none none] "prob" {} {} rfl (by simp)).2.1
  simpa using this

/-- Claim C3: the claim asserts that a queued job carrying
`metadata.sessionId` makes the worker reuse that pre-created session, with no
new session row created.  In the code the metadata is passed through
unchanged and `runResearchPipeline` unconditionally creates a fresh session:
with a pre-created session 0 referenced by `metadata.sessionId`, running the
job still appends a brand-new session row (id 1). -/
theorem C3_session_reuse_counterexample :
    (((workerProcess (fun _ => .error ()) []
        ⟨"p", { sessionId := some 0 }⟩ "job-1"
        { sessions := [⟨0, "q", {}, "pending"⟩], nextId := 1 }).2).sessions.map
          (fun s => s.id)) = [0, 1] ∧
    ((workerProcess (fun _ => .error ()) []
        ⟨"p", { sessionId := some 0 }⟩ "job-1"
        { sessions := [⟨0, "q", {}, "pending"⟩], nextId := 1 }).2).sessions.length = 2 := by
  exact ⟨rfl, rfl⟩

/-- Claim C3 (amended): whatever the job metadata contains (including a
`sessionId`), the worker's call into the pipeline always creates exactly one
fresh session row with a new id; pre-created sessions are never reused, so
job re-runs are not idempotent by session id. -/
theorem C3_no_session_reuse
    (eb : List String → Except Unit (List (ℕ × List ℝ)))
    (settled : List SettledOutcome) (job : JobData) (jobId : String) (db : Db) :
    ((workerProcess eb settled job jobId db).2).sessions.map (fun s => s.id) =
      db.sessions.map (fun s => s.id) ++ [db.nextId] := by
  unfold workerProcess
  exact runResearchPipeline_sessions_ids eb settled job.problemStatement _ db

/-! ### C7 : embedding batching preserves order -/

lemma enum_pairwise_fst_lt {β : Type} (xs : List β) :
    (List.enum xs).Pairwise (fun a b : ℕ × β => a.1 < b.1) := by
  rw [List.pairwise_iff_getElem]
  intro i j hi hj hij
  simp only [List.getElem_enum]
  simpa using hij

lemma sortByIndex_perm_enum {β : Type} (xs : List β) (l : List (ℕ × β))
    (h : l.Perm (List.enum xs)) : sortByIndex l = List.enum xs := by
  haveI : IsAntisymm (ℕ × β) (fun a b : ℕ × β => a.1 < b.1) :=
    ⟨fun a b h1 h2 => absurd (lt_trans h1 h2) (lt_irrefl _)⟩
  have hsorted : (sortByIndex l).Sorted (fun a b : ℕ × β => a.1 ≤ b.1) := by
    haveI : IsTotal (ℕ × β) (fun a b : ℕ × β => a.1 ≤ b.1) := ⟨fun a b => le_total a.1 b.1⟩
    haveI : IsTrans (ℕ × β) (fun a b : ℕ × β => a.1 ≤ b.1) :=
      ⟨fun a b c hab hbc => le_trans hab hbc⟩
    exact List.sorted_insertionSort _ l
  have hperm : (sortByIndex l).Perm (List.enum xs) :=
    (List.perm_insertionSort _ l).trans h
  have hkeys : ((sortByIndex l).map Prod.fst).Nodup := by
    rw [List.Perm.nodup_iff (hperm.map Prod.fst)]
    rw [List.enum_map_fst]
    exact List.nodup_range _
  have hne : (sortByIndex l).Pairwise (fun a b : ℕ × β => a.1 ≠ b.1) :=
    List.pairwise_map.mp hkeys
  have hstrict : (sortByIndex l).Sorted (fun a b : ℕ × β => a.1 < b.1) :=
    (hsorted.and hne).imp fun hab => lt_of_le_of_ne hab.1 hab.2
  exact List.eq_of_perm_of_sorted hperm hstrict (enum_pairwise_fst_lt xs)

lemma generateEmbeddingsGo_ok {β : Type} (bs : ℕ) (hbs : 0 < bs)
    (backend : List String → Except Unit (List (ℕ × β))) (E : String → β)
    (hbe : ∀ b, ∃ l, backend b = .ok l ∧ l.Perm (List.enum (b.map E))) :
    ∀ (n : ℕ) (ts : List String), ts.length ≤ n → ∀ (total i : ℕ),
      generateEmbeddingsGo bs hbs backend total ts i = .ok (ts.map E) := by
  intro n
  induction n with
  | zero =>
    intro ts hts total i
    have : ts = [] := List.length_eq_zero.mp (Nat.le_zero.mp hts)
    subst this
    rw [generateEmbeddingsGo]
    rfl
  | succ n ih =>
    intro ts hts total i
    cases ts with
    | nil =>
      rw [generateEmbeddingsGo]
      rfl
    | cons t ts' =>
      obtain ⟨l, hbl, hperm⟩ := hbe ((t :: ts').take bs)
      rw [generateEmbeddingsGo, hbl]
      have hrec := ih ((t :: ts').drop bs)
        (by simp only [List.length_drop, List.length_cons] at hts ⊢; omega) total (i + bs)
      rw [hrec]
      simp only
      rw [sortByIndex_perm_enum (((t :: ts').take bs).map E) l (by simpa using hperm)]
      rw [List.enum_map_snd]
      rw [← List.map_append, List.take_append_drop]

lemma generateEmbeddingsGo_error {β : Type} (bs : ℕ) (hbs : 0 < bs)
    (backend : List String → Except Unit (List (ℕ × β))) (E : String → β) :
    ∀ (n : ℕ) (ts : List String), ts.length ≤ n → ∀ (q total i : ℕ),
      (∀ b ∈ (batchesOf bs hbs ts).take q,
        ∃ l, backend b = .ok l ∧ l.Perm (List.enum (b.map E))) →
      backend ((batchesOf bs hbs ts).getD q []) = .error () →
      q < (batchesOf bs hbs ts).length →
      generateEmbeddingsGo bs hbs backend total ts i =
        .error ⟨i / bs + q + 1, totalBatchesOf total bs,
          ((batchesOf bs hbs ts).getD q []).length⟩ := by
  intro n
  induction n with
  | zero =>
    intro ts hts q total i _ _ hq
    have : ts = [] := List.length_eq_zero.mp (Nat.le_zero.mp hts)
    subst this
    simp [batchesOf] at hq
  | succ n ih =>
    intro ts hts q total i htake herr hq
    cases ts with
    | nil => simp [batchesOf] at hq
    | cons t ts' =>
      rw [batchesOf] at htake herr hq ⊢
      cases q with
      | zero =>
        simp only [List.getD_cons_zero] at herr ⊢
        rw [generateEmbeddingsGo, herr]
      | succ q' =>
        have hhead : ∃ l, backend ((t :: ts').take bs) = .ok l ∧
            l.Perm (List.enum (((t :: ts').take bs).map E)) := by
          exact htake _ (by rw [List.take_succ_cons]; exact List.mem_cons_self _ _)
        obtain ⟨l, hbl, _⟩ := hhead
        rw [generateEmbeddingsGo, hbl]
        have hrec := ih ((t :: ts').drop bs)
          (by simp only [List.length_drop, List.length_cons] at hts ⊢; omega)
          q' total (i + bs)
          (by
            intro b hb
            exact htake b (by rw [List.take_succ_cons]; exact List.mem_cons_of_mem _ hb))
          (by simpa using herr)
          (by simpa using hq)
        rw [hrec]
        simp only
        have harith : (i + bs) / bs + q' + 1 = i / bs + (q' + 1) + 1 := by
          rw [Nat.add_div_right i hbs]
          omega
        rw [harith]
        simp

/-- Claim C7: `generateEmbeddings` maps each input text to its embedding
position-by-position: the empty input yields the empty output; whenever every
batch call answers with some permutation of the indexed embeddings of that
batch, the result is exactly the embeddings of the inputs in input order,
regardless of the batch size or the within-batch order of the backend; and if
the k-th batch fails (earlier batches succeeding), the whole call fails with
the EMBEDDING_ERROR details {batchNumber = k+1, totalBatches, textsInBatch}. -/
theorem C7_embedding_batches {β : Type} (bs : ℕ) (hbs : 0 < bs)
    (backend : List String → Except Unit (List (ℕ × β))) (E : String → β)
    (texts : List String) (k : ℕ) :
    (generateEmbeddings bs hbs backend [] = .ok []) ∧
    ((∀ b, ∃ l, backend b = .ok l ∧ l.Perm (List.enum (b.map E))) →
      generateEmbeddings bs hbs backend texts = .ok (texts.map E)) ∧
    ((∀ b ∈ (batchesOf bs hbs texts).take k,
        ∃ l, backend b = .ok l ∧ l.Perm (List.enum (b.map E))) →
      backend ((batchesOf bs hbs texts).getD k []) = .error () →
      k < (batchesOf bs hbs texts).length →
      generateEmbeddings bs hbs backend texts =
        .error ⟨k + 1, totalBatchesOf texts.length bs,
          ((batchesOf bs hbs texts).getD k []).length⟩) := by
  refine ⟨rfl, ?_, ?_⟩
  · intro hbe
    unfold generateEmbeddings
    by_cases h0 : texts.length = 0
    · rw [if_pos h0]
      have : texts = [] := List.length_eq_zero.mp h0
      rw [this]
      rfl
    · rw [if_neg h0]
      exact generateEmbeddingsGo_ok bs hbs backend E hbe texts.length texts le_rfl texts.length 0
  · intro htake herr hq
    unfold generateEmbeddings
    by_cases h0 : texts.length = 0
    · exfalso
      have : texts = [] := List.length_eq_zero.mp h0
      rw [this] at hq
      simp [batchesOf] at hq
    · rw [if_neg h0]
      have := generateEmbeddingsGo_error bs hbs backend E texts.length texts le_rfl
        k texts.length 0 htake herr hq
      rw [this]
      simp

/-- Witness for C7: batch size 1 on a one-element input with the identity
backend gives the embedding of that input. -/
theorem C7_embedding_batches_witness :
    (0 < 1) ∧
      generateEmbeddings 1 Nat.one_pos
        (fun b => .ok (List.enum (b.map (fun _ => (7 : ℕ))))) ["a"] = .ok [7] := by
  refine ⟨Nat.one_pos, ?_⟩
  exact (C7_embedding_batches 1 Nat.one_pos
      (fun b => .ok (List.enum (b.map (fun _ => (7 : ℕ))))) (fun _ => (7 : ℕ)) ["a"] 0).2.1
    (fun b => ⟨_, rfl, List.Perm.refl _⟩)

/-! ### C5 : union-find basics -/

lemma pstep_oob (p : List ℕ) (x : ℕ) (h : p.length ≤ x) : pstep p x = x := by
  unfold pstep
  rw [List.getD_eq_getElem?_getD, List.getElem?_eq_none (by omega)]
  rfl

lemma isRoot_oob (p : List ℕ) (x : ℕ) (h : p.length ≤ x) : isRoot p x :=
  pstep_oob p x h

lemma iter_fixed (p : List ℕ) (x : ℕ) (h : isRoot p x) (k : ℕ) :
    (pstep p)^[k] x = x :=
  Function.iterate_fixed h k

lemma iter_lt (u : UnionFind) (hinv : UFInv u) (x : ℕ) (hx : x < u.parent.length) :
    ∀ k, (pstep u.parent)^[k] x < u.parent.length := by
  intro k
  induction k with
  | zero => exact hx
  | succ k ih =>
    rw [Function.iterate_succ_apply']
    exact hinv.2.1 _ ih

lemma rank_iter_mono (u : UnionFind) (hinv : UFInv u) (x : ℕ) (hx : x < u.parent.length)
    (K : ℕ) (hnr : ∀ i, i ≤ K → ¬ isRoot u.parent ((pstep u.parent)^[i] x)) :
    ∀ i j, i < j → j ≤ K + 1 →
      u.rank.getD ((pstep u.parent)^[i] x) 0 < u.rank.getD ((pstep u.parent)^[j] x) 0 := by
  intro i j hij hjK
  induction j with
  | zero => omega
  | succ j ih =>
    have hstep : u.rank.getD ((pstep u.parent)^[j] x) 0 <
        u.rank.getD ((pstep u.parent)^[j + 1] x) 0 := by
      rw [Function.iterate_succ_apply']
      exact hinv.2.2 _ (iter_lt u hinv x hx j) (hnr j (by omega))
    rcases Nat.lt_or_ge i j with hlt | hge
    · exact lt_trans (ih hlt (by omega)) hstep
    · have : i = j := by omega
      rw [this]
      exact hstep

lemma root_within (u : UnionFind) (hinv : UFInv u) (x : ℕ) :
    ∃ k, k ≤ u.parent.length ∧ isRoot u.parent ((pstep u.parent)^[k] x) := by
  by_cases hx : x < u.parent.length
  · by_contra hcon
    push_neg at hcon
    have hnr : ∀ i, i ≤ u.parent.length → ¬ isRoot u.parent ((pstep u.parent)^[i] x) := by
      intro i hi
      exact hcon i hi
    set n := u.parent.length with hn
    have hmono := rank_iter_mono u hinv x hx n hnr
    have hinj : Function.Injective
        (fun i : Fin (n + 1) => (⟨(pstep u.parent)^[i.1] x, iter_lt u hinv x hx i.1⟩ : Fin n)) := by
      intro a b hab
      simp only [Fin.mk.injEq] at hab
      by_contra hne
      rcases Nat.lt_or_ge a.1 b.1 with hlt | hge
      · have := hmono a.1 b.1 hlt (by omega)
        rw [hab] at this
        exact lt_irrefl _ this
      · have hba : b.1 < a.1 := by
          rcases Nat.lt_or_ge b.1 a.1 with h | h
          · exact h
          · exact absurd (Fin.ext (by omega)) hne
        have := hmono b.1 a.1 hba (by omega)
        rw [hab] at this
        exact lt_irrefl _ this
    have hcard := Fintype.card_le_of_injective _ hinj
    simp only [Fintype.card_fin] at hcard
    omega
  · refine ⟨0, by omega, ?_⟩
    rw [Function.iterate_zero_apply]
    exact isRoot_oob _ _ (by omega)

lemma rootAux_isRoot (fuel : ℕ) (p : List ℕ) (x : ℕ) (h : isRoot p x) :
    rootAux fuel p x = x := by
  cases fuel with
  | zero => rfl
  | succ fuel => exact if_pos h

lemma rootAux_spec (p : List ℕ) :
    ∀ (fuel : ℕ) (x : ℕ), (∃ k, k ≤ fuel ∧ isRoot p ((pstep p)^[k] x)) →
      isRoot p (rootAux fuel p x) ∧ ∃ k, rootAux fuel p x = (pstep p)^[k] x := by
  intro fuel
  induction fuel with
  | zero =>
    intro x ⟨k, hk, hroot⟩
    have : k = 0 := by omega
    subst this
    exact ⟨hroot, 0, rfl⟩
  | succ fuel ih =>
    intro x ⟨k, hk, hroot⟩
    by_cases hx : isRoot p x
    · rw [rootAux_isRoot _ _ _ hx]
      exact ⟨hx, 0, rfl⟩
    · have hk0 : k ≠ 0 := by
        intro h0
        rw [h0] at hroot
        exact hx hroot
      obtain ⟨k', rfl⟩ := Nat.exists_eq_succ_of_ne_zero hk0
      have hroot' : isRoot p ((pstep p)^[k'] (pstep p x)) := by
        rwa [← Function.iterate_succ_apply]
      obtain ⟨h1, k2, h2⟩ := ih (pstep p x) ⟨k', by omega, hroot'⟩
      refine ⟨?_, k2 + 1, ?_⟩
      · rw [show rootAux (fuel + 1) p x = rootAux fuel p (pstep p x) from if_neg hx]
        exact h1
      · rw [show rootAux (fuel + 1) p x = rootAux fuel p (pstep p x) from if_neg hx]
        rw [h2, Function.iterate_succ_apply]

lemma rootD_isRoot (u : UnionFind) (hinv : UFInv u) (x : ℕ) :
    isRoot u.parent (rootD u.parent x) ∧ Reach u.parent x (rootD u.parent x) := by
  obtain ⟨k, hk, hroot⟩ := root_within u hinv x
  obtain ⟨h1, k2, h2⟩ := rootAux_spec u.parent u.parent.length x ⟨k, hk, hroot⟩
  exact ⟨h1, k2, h2.symm⟩

lemma reach_root_unique (u : UnionFind) (hinv : UFInv u) (x y : ℕ)
    (hr : Reach u.parent x y) (hy : isRoot u.parent y) : y = rootD u.parent x := by
  obtain ⟨k, hk⟩ := hr
  obtain ⟨hroot2, k2, hk2⟩ := rootD_isRoot u hinv x
  rcases Nat.le_total k k2 with h | h
  · have : (pstep u.parent)^[k2] x = (pstep u.parent)^[k2 - k] ((pstep u.parent)^[k] x) := by
      rw [← Function.iterate_add_apply]
      congr 1
      omega
    rw [hk, iter_fixed u.parent y hy] at this
    rw [← hk2, this]
  · have : (pstep u.parent)^[k] x = (pstep u.parent)^[k - k2] ((pstep u.parent)^[k2] x) := by
      rw [← Function.iterate_add_apply]
      congr 1
      omega
    rw [hk2, iter_fixed u.parent _ hroot2] at this
    rw [← hk, this]

lemma reach_rootD_eq (u : UnionFind) (hinv : UFInv u) (x y : ℕ)
    (hr : Reach u.parent x y) : rootD u.parent y = rootD u.parent x := by
  obtain ⟨k, hk⟩ := hr
  obtain ⟨hroot, k2, hk2⟩ := rootD_isRoot u hinv y
  apply reach_root_unique u hinv x _ _ hroot
  exact ⟨k2 + k, by rw [Function.iterate_add_apply, hk, hk2]⟩

lemma rootD_fix (u : UnionFind) (hinv : UFInv u) (x : ℕ) (h : rootD u.parent x = x) :
    isRoot u.parent x := by
  have := (rootD_isRoot u hinv x).1
  rwa [h] at this

lemma rank_lt_of_reach (u : UnionFind) (hinv : UFInv u) (x y : ℕ)
    (hx : x < u.parent.length) (hr : Reach u.parent x y) (hxy : x ≠ y) :
    u.rank.getD x 0 < u.rank.getD y 0 := by
  obtain ⟨k, hk⟩ := hr
  induction k generalizing x with
  | zero => exact absurd hk hxy
  | succ k ih =>
    by_cases hroot : isRoot u.parent x
    · rw [iter_fixed u.parent x hroot] at hk
      exact absurd hk hxy
    · have hstep : u.rank.getD x 0 < u.rank.getD (pstep u.parent x) 0 :=
        hinv.2.2 x hx hroot
      by_cases heq : pstep u.parent x = y
      · rwa [heq] at hstep
      · have hk' : (pstep u.parent)^[k] (pstep u.parent x) = y := by
          rwa [← Function.iterate_succ_apply]
        exact lt_trans hstep (ih (pstep u.parent x) (hinv.2.1 x hx) heq hk')

lemma rootD_lt (u : UnionFind) (hinv : UFInv u) (x : ℕ) (hx : x < u.parent.length) :
    rootD u.parent x < u.parent.length := by
  obtain ⟨_, k, hk⟩ := rootD_isRoot u hinv x
  rw [← hk]
  exact iter_lt u hinv x hx k

/-! ### C5 : redirecting one parent pointer -/

lemma pstep_set (p : List ℕ) (a b z : ℕ) :
    pstep (p.set a b) z = if z = a ∧ a < p.length then b else pstep p z := by
  unfold pstep
  rw [List.getD_eq_getElem?_getD, List.getD_eq_getElem?_getD, List.getElem?_set]
  by_cases hz : a = z
  · subst hz
    by_cases ha : a < p.length
    · rw [if_pos rfl, if_pos ha, if_pos ⟨rfl, ha⟩]
      rfl
    · rw [if_pos rfl, if_neg ha, if_neg (by tauto)]
      rw [List.getElem?_eq_none (by omega)]
  · rw [if_neg hz, if_neg (by tauto)]

lemma reach_set (u : UnionFind) (hinv : UFInv u) (a r : ℕ)
    (ha : a < u.parent.length) (hroot_r : isRoot u.parent r) (hra : r ≠ a)
    (hcase : isRoot u.parent a ∨ r = rootD u.parent a) :
    ∀ (k z w : ℕ), (pstep u.parent)^[k] z = w → isRoot u.parent w →
      Reach (u.parent.set a r) z (if w = a then r else w) := by
  intro k
  induction k with
  | zero =>
    intro z w hk hw
    rw [Function.iterate_zero_apply] at hk
    subst hk
    by_cases hza : z = a
    · rw [if_pos hza]
      refine ⟨1, ?_⟩
      rw [Function.iterate_one, pstep_set, if_pos ⟨hza, ha⟩]
    · rw [if_neg hza]
      exact ⟨0, rfl⟩
  | succ k ih =>
    intro z w hk hw
    by_cases hz : isRoot u.parent z
    · rw [iter_fixed u.parent z hz] at hk
      subst hk
      by_cases hza : z = a
      · rw [if_pos hza]
        refine ⟨1, ?_⟩
        rw [Function.iterate_one, pstep_set, if_pos ⟨hza, ha⟩]
      · rw [if_neg hza]
        exact ⟨0, rfl⟩
    · by_cases hza : z = a
      · subst hza
        have hra2 : r = rootD u.parent z := by
          rcases hcase with h | h
          · exact absurd h hz
          · exact h
        have hwr : w = rootD u.parent z :=
          reach_root_unique u hinv z w ⟨k + 1, hk⟩ hw
        have hwa : w ≠ z := by
          rw [hwr, ← hra2]
          exact hra
        rw [if_neg hwa]
        refine ⟨1, ?_⟩
        rw [Function.iterate_one, pstep_set, if_pos ⟨rfl, ha⟩, hwr, ← hra2]
      · have hk' : (pstep u.parent)^[k] (pstep u.parent z) = w := by
          rwa [← Function.iterate_succ_apply]
        obtain ⟨k2, hk2⟩ := ih (pstep u.parent z) w hk' hw
        refine ⟨k2 + 1, ?_⟩
        rw [Function.iterate_succ_apply]
        rw [pstep_set, if_neg (by tauto)]
        exact hk2

lemma isRoot_set (p : List ℕ) (a r z : ℕ) (hz : z ≠ a) (h : isRoot p z) :
    isRoot (p.set a r) z := by
  unfold isRoot at *
  rw [pstep_set, if_neg (by tauto)]
  exact h

lemma rootD_set_eq (u : UnionFind) (hinv : UFInv u) (a r : ℕ) (rank' : List ℕ)
    (ha : a < u.parent.length) (hroot_r : isRoot u.parent r) (hra : r ≠ a)
    (hcase : isRoot u.parent a ∨ r = rootD u.parent a)
    (hinv' : UFInv ⟨u.parent.set a r, rank'⟩) :
    ∀ z, rootD (u.parent.set a r) z =
      if rootD u.parent z = a then r else rootD u.parent z := by
  intro z
  obtain ⟨hrz, k, hk⟩ := rootD_isRoot u hinv z
  have hreach := reach_set u hinv a r ha hroot_r hra hcase k z _ hk hrz
  have hroot' : isRoot (u.parent.set a r)
      (if rootD u.parent z = a then r else rootD u.parent z) := by
    by_cases hcc : rootD u.parent z = a
    · rw [if_pos hcc]
      exact isRoot_set u.parent a r r hra hroot_r
    · rw [if_neg hcc]
      exact isRoot_set u.parent a r _ hcc hrz
  exact (reach_root_unique ⟨u.parent.set a r, rank'⟩ hinv' z _ hreach hroot').symm

lemma compress_spec (u : UnionFind) (hinv : UFInv u) (a : ℕ)
    (ha : a < u.parent.length) (hnr : ¬ isRoot u.parent a) :
    UFInv ⟨u.parent.set a (rootD u.parent a), u.rank⟩ ∧
    ∀ z, rootD (u.parent.set a (rootD u.parent a)) z = rootD u.parent z := by
  have hroot_r : isRoot u.parent (rootD u.parent a) := (rootD_isRoot u hinv a).1
  have hne : rootD u.parent a ≠ a := fun h => hnr (rootD_fix u hinv a h)
  have hrlt : rootD u.parent a < u.parent.length := rootD_lt u hinv a ha
  have hinv' : UFInv ⟨u.parent.set a (rootD u.parent a), u.rank⟩ := by
    refine ⟨?_, ?_, ?_⟩
    · simp only [List.length_set]
      exact hinv.1
    · intro x hx
      simp only [List.length_set] at hx ⊢
      rw [pstep_set]
      by_cases hxa : x = a ∧ a < u.parent.length
      · rw [if_pos hxa]
        exact hrlt
      · rw [if_neg hxa]
        exact hinv.2.1 x hx
    · intro x hx hnr'
      simp only [List.length_set] at hx
      simp only
      rw [pstep_set]
      by_cases hxa : x = a ∧ a < u.parent.length
      · rw [if_pos hxa]
        have hstep : u.rank.getD a 0 < u.rank.getD (pstep u.parent a) 0 :=
          hinv.2.2 a ha hnr
        rcases eq_or_ne (pstep u.parent a) (rootD u.parent a) with heq | hne2
        · rw [hxa.1, ← heq]
          exact hstep
        · have hreach2 : Reach u.parent (pstep u.parent a) (rootD u.parent a) := by
            have h1 : rootD u.parent (pstep u.parent a) = rootD u.parent a :=
              reach_rootD_eq u hinv a (pstep u.parent a) ⟨1, rfl⟩
            have := (rootD_isRoot u hinv (pstep u.parent a)).2
            rwa [h1] at this
          have := rank_lt_of_reach u hinv (pstep u.parent a) (rootD u.parent a)
            (hinv.2.1 a ha) hreach2 hne2
          rw [hxa.1]
          exact lt_trans hstep this
      · rw [if_neg hxa]
        apply hinv.2.2 x hx
        intro hroot
        apply hnr'
        apply isRoot_set
        · intro hxa2
          exact hxa ⟨hxa2, ha⟩
        · exact hroot
  refine ⟨hinv', ?_⟩
  intro z
  have := rootD_set_eq u hinv a (rootD u.parent a) u.rank ha hroot_r hne (Or.inr rfl) hinv' z
  rw [this]
  have hza : rootD u.parent z ≠ a := by
    intro h
    exact hnr (h ▸ (rootD_isRoot u hinv z).1)
  rw [if_neg hza]

/-! ### C5 : find with path compression, union -/

lemma rootD_pstep (u : UnionFind) (hinv : UFInv u) (y : ℕ) :
    rootD u.parent (pstep u.parent y) = rootD u.parent y :=
  reach_rootD_eq u hinv y (pstep u.parent y) ⟨1, rfl⟩

lemma findAux_spec (u : UnionFind) (hinv : UFInv u) :
    ∀ (fuel y : ℕ), (∃ k, k ≤ fuel ∧ isRoot u.parent ((pstep u.parent)^[k] y)) →
      (findAux fuel u.parent y).1 = rootD u.parent y ∧
      (findAux fuel u.parent y).2.length = u.parent.length ∧
      UFInv ⟨(findAux fuel u.parent y).2, u.rank⟩ ∧
      (∀ z, rootD (findAux fuel u.parent y).2 z = rootD u.parent z) ∧
      (∀ z, pstep (findAux fuel u.parent y).2 z ≠ pstep u.parent z →
        Reach u.parent y z ∧ ¬ isRoot u.parent z ∧ z < u.parent.length) := by
  intro fuel
  induction fuel with
  | zero =>
    intro y ⟨k, hk, hroot⟩
    have hk0 : k = 0 := by omega
    subst hk0
    rw [Function.iterate_zero_apply] at hroot
    exact ⟨(rootAux_isRoot _ _ _ hroot).symm, rfl, hinv, fun z => rfl,
      fun z hz => absurd rfl hz⟩
  | succ fuel ih =>
    intro y hex
    by_cases hy : isRoot u.parent y
    · have hy' : u.parent.getD y y = y := hy
      have : findAux (fuel + 1) u.parent y = (y, u.parent) := by
        simp only [findAux]
        rw [if_pos hy']
      rw [this]
      exact ⟨(rootAux_isRoot _ _ _ hy).symm, rfl, hinv, fun z => rfl,
        fun z hz => absurd rfl hz⟩
    · obtain ⟨k, hk, hroot⟩ := hex
      have hk0 : k ≠ 0 := by
        intro h0
        rw [h0, Function.iterate_zero_apply] at hroot
        exact hy hroot
      obtain ⟨k', rfl⟩ := Nat.exists_eq_succ_of_ne_zero hk0
      have hroot' : isRoot u.parent ((pstep u.parent)^[k'] (pstep u.parent y)) := by
        rwa [← Function.iterate_succ_apply]
      obtain ⟨ih1, ih2, ih3, ih4, ih5⟩ := ih (pstep u.parent y) ⟨k', by omega, hroot'⟩
      have hylt : y < u.parent.length := by
        by_contra hge
        exact hy (isRoot_oob _ _ (by omega))
      have hy' : ¬ u.parent.getD y y = y := hy
      have hstep : findAux (fuel + 1) u.parent y =
          ((findAux fuel u.parent (pstep u.parent y)).1,
           (findAux fuel u.parent (pstep u.parent y)).2.set y
             (findAux fuel u.parent (pstep u.parent y)).1) := by
        simp only [findAux]
        rw [if_neg hy']
        rfl
      set res := findAux fuel u.parent (pstep u.parent y) with hres
      have hroot_eq : res.1 = rootD u.parent y := by
        rw [ih1, rootD_pstep u hinv y]
      -- y's parent pointer is unchanged by the recursive compression
      have hy_unchanged : pstep res.2 y = pstep u.parent y := by
        by_contra hne
        obtain ⟨hr, hnroot, _⟩ := ih5 y hne
        by_cases hpy : pstep u.parent y = y
        · exact hy hpy
        · have hrank1 : u.rank.getD y 0 < u.rank.getD (pstep u.parent y) 0 :=
            hinv.2.2 y hylt hy
          have hrank2 : u.rank.getD (pstep u.parent y) 0 < u.rank.getD y 0 :=
            rank_lt_of_reach u hinv (pstep u.parent y) y (hinv.2.1 y hylt) hr hpy
          omega
      have hy_nroot : ¬ isRoot res.2 y := by
        unfold isRoot
        rw [hy_unchanged]
        exact hy
      have hylt2 : y < res.2.length := by rw [ih2]; exact hylt
      have hcomp := compress_spec ⟨res.2, u.rank⟩ ih3 y hylt2 hy_nroot
      have hrootres : rootD res.2 y = res.1 := by
        rw [ih4 y, hroot_eq]
      rw [hstep]
      refine ⟨hroot_eq, ?_, ?_, ?_, ?_⟩
      · simp only [List.length_set]
        exact ih2
      · have := hcomp.1
        rwa [hrootres] at this
      · intro z
        have := hcomp.2 z
        rw [hrootres] at this
        simp only at this ⊢
        rw [this, ih4 z]
      · intro z hz
        simp only at hz
        by_cases hzy : z = y
        · subst hzy
          exact ⟨⟨0, rfl⟩, hy, hylt⟩
        · have hz2 : pstep res.2 z ≠ pstep u.parent z := by
            intro heq
            apply hz
            rw [pstep_set, if_neg (by tauto)]
            exact heq
          obtain ⟨⟨k2, hk2⟩, hnr2, hlt2⟩ := ih5 z hz2
          exact ⟨⟨k2 + 1, by rw [Function.iterate_succ_apply]; exact hk2⟩, hnr2, hlt2⟩

lemma find_spec (u : UnionFind) (hinv : UFInv u) (x : ℕ) :
    (u.find x).1 = rootD u.parent x ∧
    (u.find x).2.parent.length = u.parent.length ∧
    (u.find x).2.rank = u.rank ∧
    UFInv (u.find x).2 ∧
    (∀ z, rootD (u.find x).2.parent z = rootD u.parent z) := by
  obtain ⟨k, hk, hroot⟩ := root_within u hinv x
  obtain ⟨h1, h2, h3, h4, _⟩ := findAux_spec u hinv u.parent.length x ⟨k, hk, hroot⟩
  exact ⟨h1, h2, rfl, h3, h4⟩

lemma link_spec (u : UnionFind) (hinv : UFInv u) (a b : ℕ) (rank' : List ℕ)
    (ha : a < u.parent.length) (hb : b < u.parent.length)
    (hra : isRoot u.parent a) (hrb : isRoot u.parent b) (hab : a ≠ b)
    (hlen' : rank'.length = u.rank.length)
    (hsame : ∀ z, z ≠ b → rank'.getD z 0 = u.rank.getD z 0)
    (hbump : u.rank.getD a 0 < rank'.getD b 0)
    (hble : u.rank.getD b 0 ≤ rank'.getD b 0) :
    UFInv ⟨u.parent.set a b, rank'⟩ ∧
    (∀ z, rootD (u.parent.set a b) z =
      if rootD u.parent z = a then b else rootD u.parent z) := by
  have hinv' : UFInv ⟨u.parent.set a b, rank'⟩ := by
    refine ⟨?_, ?_, ?_⟩
    · simp only [List.length_set]
      rw [hlen']
      exact hinv.1
    · intro x hx
      simp only [List.length_set] at hx ⊢
      rw [pstep_set]
      by_cases hxa : x = a ∧ a < u.parent.length
      · rw [if_pos hxa]
        exact hb
      · rw [if_neg hxa]
        exact hinv.2.1 x hx
    · intro x hx hnr'
      simp only [List.length_set] at hx
      have hnr2 : ¬ isRoot (u.parent.set a b) x := hnr'
      show rank'.getD x 0 < rank'.getD (pstep (u.parent.set a b) x) 0
      unfold isRoot at hnr2
      rw [pstep_set] at hnr2 ⊢
      by_cases hxa : x = a ∧ a < u.parent.length
      · rw [if_pos hxa]
        rw [hsame x (by rw [hxa.1]; exact hab)]
        rw [hxa.1]
        exact hbump
      · rw [if_neg hxa] at hnr2 ⊢
        have hxa' : x ≠ a := by
          intro h
          exact hxa ⟨h, ha⟩
        have hxnr : ¬ isRoot u.parent x := hnr2
        have hxb : x ≠ b := by
          intro h
          rw [h] at hxnr
          exact hxnr hrb
        rw [hsame x hxb]
        have hbase : u.rank.getD x 0 < u.rank.getD (pstep u.parent x) 0 :=
          hinv.2.2 x hx hxnr
        by_cases hpb : pstep u.parent x = b
        · rw [hpb]
          rw [hpb] at hbase
          omega
        · rw [hsame _ hpb]
          exact hbase
  refine ⟨hinv', ?_⟩
  exact rootD_set_eq u hinv a b rank' ha hrb (Ne.symm hab) (Or.inl hra) hinv'

lemma if_reroot_eq (A B ga gb : ℕ) (hAB : A ≠ B) :
    ((if ga = A then B else ga) = (if gb = A then B else gb)) ↔
      (ga = gb ∨ (ga = A ∧ gb = B) ∨ (ga = B ∧ gb = A)) := by
  by_cases h1 : ga = A <;> by_cases h2 : gb = A
  · rw [if_pos h1, if_pos h2]
    omega
  · rw [if_pos h1, if_neg h2]
    omega
  · rw [if_neg h1, if_pos h2]
    omega
  · rw [if_neg h1, if_neg h2]
    omega

lemma union_spec (u : UnionFind) (hinv : UFInv u) (x y : ℕ)
    (hx : x < u.parent.length) (hy : y < u.parent.length) :
    UFInv (u.union x y) ∧
    (u.union x y).parent.length = u.parent.length ∧
    (∀ a b, rootD (u.union x y).parent a = rootD (u.union x y).parent b ↔
      (rootD u.parent a = rootD u.parent b ∨
       (rootD u.parent a = rootD u.parent x ∧ rootD u.parent b = rootD u.parent y) ∨
       (rootD u.parent a = rootD u.parent y ∧ rootD u.parent b = rootD u.parent x))) := by
  obtain ⟨f1a, f1b, f1c, f1d, f1e⟩ := find_spec u hinv x
  set u1 := (u.find x).2 with hu1
  obtain ⟨f2a, f2b, f2c, f2d, f2e⟩ := find_spec u1 f1d y
  set u2 := (u1.find y).2 with hu2
  have hrx : (u.find x).1 = rootD u.parent x := f1a
  have hry : (u1.find y).1 = rootD u.parent y := by
    rw [f2a, f1e]
  have hu2roots : ∀ z, rootD u2.parent z = rootD u.parent z := by
    intro z
    rw [f2e, f1e]
  have hu2len : u2.parent.length = u.parent.length := by
    rw [f2b, f1b]
  have hu2rank : u2.rank = u.rank := by
    rw [f2c, f1c]
  have hunion : u.union x y =
      (if (u.find x).1 = (u1.find y).1 then u2
       else if u2.rank.getD (u.find x).1 0 < u2.rank.getD (u1.find y).1 0 then
         { u2 with parent := u2.parent.set (u.find x).1 (u1.find y).1 }
       else if u2.rank.getD (u1.find y).1 0 < u2.rank.getD (u.find x).1 0 then
         { u2 with parent := u2.parent.set (u1.find y).1 (u.find x).1 }
       else
         { parent := u2.parent.set (u1.find y).1 (u.find x).1,
           rank := u2.rank.set (u.find x).1 (u2.rank.getD (u.find x).1 0 + 1) }) := by
    rfl
  by_cases hpq : (u.find x).1 = (u1.find y).1
  · rw [hunion, if_pos hpq]
    refine ⟨f2d, hu2len, ?_⟩
    intro a b
    rw [hu2roots, hu2roots]
    have hxy : rootD u.parent x = rootD u.parent y := by
      rw [← hrx, ← hry, hpq]
    constructor
    · intro h
      exact Or.inl h
    · rintro (h | ⟨h1, h2⟩ | ⟨h1, h2⟩)
      · exact h
      · rw [h1, h2, hxy]
      · rw [h1, h2, hxy]
  · have hPx : isRoot u2.parent (rootD u.parent x) := by
      apply rootD_fix u2 f2d
      rw [hu2roots]
      exact rootAux_isRoot _ _ _ (rootD_isRoot u hinv x).1
    have hPy : isRoot u2.parent (rootD u.parent y) := by
      apply rootD_fix u2 f2d
      rw [hu2roots]
      exact rootAux_isRoot _ _ _ (rootD_isRoot u hinv y).1
    have hPxlt : rootD u.parent x < u2.parent.length := by
      rw [hu2len]
      exact rootD_lt u hinv x hx
    have hPylt : rootD u.parent y < u2.parent.length := by
      rw [hu2len]
      exact rootD_lt u hinv y hy
    have hne : rootD u.parent x ≠ rootD u.parent y := by
      intro h
      apply hpq
      rw [hrx, hry, h]
    rw [hunion, if_neg hpq, hrx, hry]
    rw [hrx, hry] at hpq
    by_cases hc1 : u2.rank.getD (rootD u.parent x) 0 < u2.rank.getD (rootD u.parent y) 0
    · rw [if_pos hc1]
      obtain ⟨hinv3, hroots3⟩ := link_spec u2 f2d (rootD u.parent x) (rootD u.parent y)
        u2.rank hPxlt hPylt hPx hPy hne rfl (fun z _ => rfl) hc1 le_rfl
      refine ⟨hinv3, by simp only [List.length_set]; exact hu2len, ?_⟩
      intro a b
      simp only
      rw [hroots3 a, hroots3 b, hu2roots a, hu2roots b]
      rw [if_reroot_eq _ _ _ _ hne]
    · rw [if_neg hc1]
      by_cases hc2 : u2.rank.getD (rootD u.parent y) 0 < u2.rank.getD (rootD u.parent x) 0
      · rw [if_pos hc2]
        obtain ⟨hinv3, hroots3⟩ := link_spec u2 f2d (rootD u.parent y) (rootD u.parent x)
          u2.rank hPylt hPxlt hPy hPx (Ne.symm hne) rfl (fun z _ => rfl) hc2 le_rfl
        refine ⟨hinv3, by simp only [List.length_set]; exact hu2len, ?_⟩
        intro a b
        simp only
        rw [hroots3 a, hroots3 b, hu2roots a, hu2roots b]
        rw [if_reroot_eq _ _ _ _ (Ne.symm hne)]
        tauto
      · rw [if_neg hc2]
        have hrankx : rootD u.parent x < u2.rank.length := by
          rw [f2d.1]
          exact hPxlt
        have hset_ne : ∀ z, z ≠ rootD u.parent x →
            (u2.rank.set (rootD u.parent x)
              (u2.rank.getD (rootD u.parent x) 0 + 1)).getD z 0 = u2.rank.getD z 0 := by
          intro z hz
          rw [List.getD_eq_getElem?_getD (u2.rank.set _ _),
            List.getElem?_set_ne (fun h => hz h.symm), ← List.getD_eq_getElem?_getD]
        have hset_self : (u2.rank.set (rootD u.parent x)
            (u2.rank.getD (rootD u.parent x) 0 + 1)).getD (rootD u.parent x) 0 =
            u2.rank.getD (rootD u.parent x) 0 + 1 := by
          rw [List.getD_eq_getElem?_getD (u2.rank.set _ _),
            List.getElem?_set_self hrankx]
          rfl
        obtain ⟨hinv3, hroots3⟩ := link_spec u2 f2d (rootD u.parent y) (rootD u.parent x)
          (u2.rank.set (rootD u.parent x) (u2.rank.getD (rootD u.parent x) 0 + 1))
          hPylt hPxlt hPy hPx (Ne.symm hne) (by simp only [List.length_set])
          (fun z hz => hset_ne z hz)
          (by rw [hset_self]; omega)
          (by rw [hset_self]; omega)
        refine ⟨hinv3, by simp only [List.length_set]; exact hu2len, ?_⟩
        intro a b
        simp only
        rw [hroots3 a, hroots3 b, hu2roots a, hu2roots b]
        rw [if_reroot_eq _ _ _ _ (Ne.symm hne)]
        tauto

/-! ### C5 : the edge-processing fold computes connectivity classes -/

lemma eqvGen_nil_iff (a b : ℕ) :
    Relation.EqvGen (fun x y => (x, y) ∈ ([] : List (ℕ × ℕ))) a b ↔ a = b := by
  constructor
  · intro h
    induction h with
    | rel x y hxy => simp at hxy
    | refl x => rfl
    | symm x y _ ih => exact ih.symm
    | trans x y z _ _ ih1 ih2 => exact ih1.trans ih2
  · rintro rfl
    exact Relation.EqvGen.refl a

lemma eqvGen_append_iff (E : List (ℕ × ℕ)) (i j : ℕ) (a b : ℕ) :
    Relation.EqvGen (fun x y => (x, y) ∈ E ++ [(i, j)]) a b ↔
      (Relation.EqvGen (fun x y => (x, y) ∈ E) a b ∨
       (Relation.EqvGen (fun x y => (x, y) ∈ E) a i ∧
        Relation.EqvGen (fun x y => (x, y) ∈ E) b j) ∨
       (Relation.EqvGen (fun x y => (x, y) ∈ E) a j ∧
        Relation.EqvGen (fun x y => (x, y) ∈ E) b i)) := by
  constructor
  · intro h
    induction h with
    | rel x y hxy =>
      rw [List.mem_append] at hxy
      rcases hxy with hxy | hxy
      · exact Or.inl (Relation.EqvGen.rel x y hxy)
      · rw [List.mem_singleton, Prod.mk.injEq] at hxy
        exact Or.inr (Or.inl ⟨hxy.1 ▸ Relation.EqvGen.refl x,
          hxy.2 ▸ Relation.EqvGen.refl y⟩)
    | refl x => exact Or.inl (Relation.EqvGen.refl x)
    | symm x y _ ih =>
      rcases ih with h | ⟨h1, h2⟩ | ⟨h1, h2⟩
      · exact Or.inl (Relation.EqvGen.symm x y h)
      · exact Or.inr (Or.inr ⟨h2, h1⟩)
      · exact Or.inr (Or.inl ⟨h2, h1⟩)
    | trans x y z _ _ ih1 ih2 =>
      rcases ih1 with h | ⟨h1, h2⟩ | ⟨h1, h2⟩ <;>
        rcases ih2 with g | ⟨g1, g2⟩ | ⟨g1, g2⟩
      · exact Or.inl (h.trans _ _ _ g)
      · exact Or.inr (Or.inl ⟨h.trans _ _ _ g1, g2⟩)
      · exact Or.inr (Or.inr ⟨h.trans _ _ _ g1, g2⟩)
      · exact Or.inr (Or.inl ⟨h1, (g.symm _ _).trans _ _ _ h2⟩)
      · exact Or.inr (Or.inl ⟨h1, g2⟩)
      · exact Or.inl (h1.trans _ _ _ (g2.symm _ _))
      · exact Or.inr (Or.inr ⟨h1, (g.symm _ _).trans _ _ _ h2⟩)
      · exact Or.inl (h1.trans _ _ _ (g2.symm _ _))
      · exact Or.inr (Or.inr ⟨h1, g2⟩)
  · have hmono : ∀ c d, Relation.EqvGen (fun x y => (x, y) ∈ E) c d →
        Relation.EqvGen (fun x y => (x, y) ∈ E ++ [(i, j)]) c d := by
      intro c d
      exact Relation.EqvGen.mono (fun x y hxy => List.mem_append_left _ hxy)
    have hij : Relation.EqvGen (fun x y => (x, y) ∈ E ++ [(i, j)]) i j :=
      Relation.EqvGen.rel i j (List.mem_append_right _ (List.mem_singleton.mpr rfl))
    rintro (h | ⟨h1, h2⟩ | ⟨h1, h2⟩)
    · exact hmono a b h
    · exact ((hmono a i h1).trans _ _ _ hij).trans _ _ _ ((hmono b j h2).symm _ _)
    · exact ((hmono a j h1).trans _ _ _ (hij.symm _ _)).trans _ _ _ ((hmono b i h2).symm _ _)

lemma fold_union_spec {α : Type} [Inhabited α] [LinearOrder α]
    (m : List (List α)) (t : α) (n : ℕ) :
    ∀ (L : List (ℕ × ℕ)) (u : UnionFind) (E : List (ℕ × ℕ)),
      UFInv u → u.parent.length = n → (∀ pr ∈ L, pr.1 < n ∧ pr.2 < n) →
      (∀ a b, rootD u.parent a = rootD u.parent b ↔
        Relation.EqvGen (fun x y => (x, y) ∈ E) a b) →
      UFInv (L.foldl (fun uf pr =>
          if t ≤ mEntry m pr.1 pr.2 then uf.union pr.1 pr.2 else uf) u) ∧
      (L.foldl (fun uf pr =>
          if t ≤ mEntry m pr.1 pr.2 then uf.union pr.1 pr.2 else uf) u).parent.length = n ∧
      (∀ a b, rootD (L.foldl (fun uf pr =>
          if t ≤ mEntry m pr.1 pr.2 then uf.union pr.1 pr.2 else uf) u).parent a =
        rootD (L.foldl (fun uf pr =>
          if t ≤ mEntry m pr.1 pr.2 then uf.union pr.1 pr.2 else uf) u).parent b ↔
        Relation.EqvGen
          (fun x y => (x, y) ∈ E ++ L.filter (fun pr => t ≤ mEntry m pr.1 pr.2)) a b) := by
  intro L
  induction L with
  | nil =>
    intro u E hinv hlen _ hchar
    simp only [List.foldl_nil, List.filter_nil, List.append_nil]
    exact ⟨hinv, hlen, hchar⟩
  | cons pr L ih =>
    intro u E hinv hlen hmem hchar
    rw [List.foldl_cons]
    by_cases hedge : t ≤ mEntry m pr.1 pr.2
    · rw [if_pos hedge]
      obtain ⟨hu1, hl1, hc1⟩ := union_spec u hinv pr.1 pr.2
        (by rw [hlen]; exact (hmem pr (List.mem_cons_self pr L)).1)
        (by rw [hlen]; exact (hmem pr (List.mem_cons_self pr L)).2)
      have hchar1 : ∀ a b, rootD (u.union pr.1 pr.2).parent a =
          rootD (u.union pr.1 pr.2).parent b ↔
          Relation.EqvGen (fun x y => (x, y) ∈ E ++ [(pr.1, pr.2)]) a b := by
        intro a b
        rw [hc1 a b, eqvGen_append_iff]
        rw [hchar a b, hchar a pr.1, hchar a pr.2, hchar b pr.1, hchar b pr.2]
      have := ih (u.union pr.1 pr.2) (E ++ [(pr.1, pr.2)]) hu1
        (by rw [hl1]; exact hlen)
        (fun q hq => hmem q (List.mem_cons_of_mem pr hq)) hchar1
      rw [List.filter_cons, if_pos (by exact decide_eq_true hedge)]
      obtain ⟨j1, j2, j3⟩ := this
      refine ⟨j1, j2, ?_⟩
      intro a b
      rw [j3 a b]
      have : E ++ [(pr.1, pr.2)] ++ L.filter (fun q => t ≤ mEntry m q.1 q.2) =
          E ++ (pr :: L.filter (fun q => t ≤ mEntry m q.1 q.2)) := by
        rw [List.append_assoc]
        rfl
      rw [this]
    · rw [if_neg hedge]
      have := ih u E hinv hlen (fun q hq => hmem q (List.mem_cons_of_mem pr hq)) hchar
      rw [List.filter_cons, if_neg (by simpa using hedge)]
      exact this

lemma init_parent_length (n : ℕ) : (UnionFind.init n).parent.length = n := by
  simp [UnionFind.init]

lemma init_isRoot (n : ℕ) (x : ℕ) : isRoot (UnionFind.init n).parent x := by
  by_cases hx : x < n
  · show pstep (List.range n) x = x
    unfold pstep
    rw [List.getD_eq_getElem?_getD, List.getElem?_range hx]
    rfl
  · exact isRoot_oob _ x (by rw [init_parent_length]; omega)

lemma init_rootD (n : ℕ) (x : ℕ) : rootD (UnionFind.init n).parent x = x :=
  rootAux_isRoot _ _ x (init_isRoot n x)

lemma init_inv (n : ℕ) : UFInv (UnionFind.init n) := by
  refine ⟨by simp [UnionFind.init], ?_, ?_⟩
  · intro x hx
    have := init_isRoot n x
    rw [this]
    exact hx
  · intro x hx hroot
    exact absurd (init_isRoot n x) hroot

lemma mem_upperPairs (n i j : ℕ) : (i, j) ∈ upperPairs n ↔ i < j ∧ j < n := by
  unfold upperPairs
  simp only [List.mem_flatMap, List.mem_map, List.mem_filter, List.mem_range,
    Prod.mk.injEq, decide_eq_true_eq]
  constructor
  · rintro ⟨a, _, b, ⟨hb, hab⟩, rfl, rfl⟩
    exact ⟨hab, hb⟩
  · rintro ⟨hij, hj⟩
    exact ⟨i, by omega, j, ⟨hj, hij⟩, rfl, rfl⟩

lemma clusterUnionFind_spec {α : Type} [Inhabited α] [LinearOrder α]
    (m : List (List α)) (t : α) :
    UFInv (clusterUnionFind m t) ∧
    (clusterUnionFind m t).parent.length = m.length ∧
    (∀ a b, rootD (clusterUnionFind m t).parent a =
        rootD (clusterUnionFind m t).parent b ↔
      Relation.EqvGen
        (fun x y => (x, y) ∈
          (upperPairs m.length).filter (fun pr => t ≤ mEntry m pr.1 pr.2)) a b) := by
  have hmem : ∀ pr ∈ upperPairs m.length, pr.1 < m.length ∧ pr.2 < m.length := by
    rintro ⟨i, j⟩ hp
    have := (mem_upperPairs m.length i j).mp hp
    exact ⟨by omega, this.2⟩
  have hbase : ∀ a b, rootD (UnionFind.init m.length).parent a =
      rootD (UnionFind.init m.length).parent b ↔
      Relation.EqvGen (fun x y => (x, y) ∈ ([] : List (ℕ × ℕ))) a b := by
    intro a b
    rw [init_rootD, init_rootD, eqvGen_nil_iff]
  have h := fold_union_spec m t m.length (upperPairs m.length)
    (UnionFind.init m.length) [] (init_inv m.length) (init_parent_length m.length)
    hmem hbase
  rw [List.nil_append] at h
  exact h

lemma pathConn_refl {α : Type} [Inhabited α] [LinearOrder α]
    (m : List (List α)) (t : α) (i : ℕ) (hi : i < m.length) : PathConn m t i i :=
  ⟨[i], rfl, rfl, by simpa using hi, List.chain'_singleton i⟩

lemma pathConn_symm {α : Type} [Inhabited α] [LinearOrder α]
    (m : List (List α)) (t : α)
    (hsym : ∀ i j, i < m.length → j < m.length → mEntry m i j = mEntry m j i)
    (i j : ℕ) (h : PathConn m t i j) : PathConn m t j i := by
  obtain ⟨ks, h1, h2, hm, hc⟩ := h
  refine ⟨ks.reverse, ?_, ?_, ?_, ?_⟩
  · rw [List.head?_reverse]; exact h2
  · rw [List.getLast?_reverse]; exact h1
  · intro x hx; exact hm x (List.mem_reverse.mp hx)
  · rw [List.chain'_reverse]
    rw [List.chain'_iff_get] at hc ⊢
    intro k hk
    have ha := hm _ (ks.get_mem k (by omega))
    have hb := hm _ (ks.get_mem (k + 1) (by omega))
    show t ≤ mEntry m (ks.get ⟨k + 1, by omega⟩) (ks.get ⟨k, by omega⟩)
    rw [hsym _ _ hb ha]
    exact hc k hk

lemma pathConn_trans {α : Type} [Inhabited α] [LinearOrder α]
    (m : List (List α)) (t : α) (i j k : ℕ)
    (h1 : PathConn m t i j) (h2 : PathConn m t j k) : PathConn m t i k := by
  obtain ⟨ks, hk1, hk2, hkm, hkc⟩ := h1
  obtain ⟨ls, hl1, hl2, hlm, hlc⟩ := h2
  cases ls with
  | nil => simp at hl1
  | cons y ls' =>
    have hy : y = j := by simpa using hl1
    cases ls' with
    | nil =>
      have hjk : y = k := by simpa using hl2
      refine ⟨ks, hk1, ?_, hkm, hkc⟩
      rw [hk2, ← hy, hjk]
    | cons z ls'' =>
      refine ⟨ks ++ (z :: ls''), ?_, ?_, ?_, ?_⟩
      · cases ks with
        | nil => simp at hk1
        | cons a as => simpa using hk1
      · rw [List.getLast?_append_cons]
        rw [List.getLast?_cons_cons] at hl2
        exact hl2
      · intro x hx
        rw [List.mem_append] at hx
        rcases hx with hx | hx
        · exact hkm x hx
        · exact hlm x (List.mem_cons_of_mem y hx)
      · refine List.Chain'.append hkc (List.chain'_cons.mp hlc).2 ?_
        intro x hx w hw
        rw [hk2] at hx
        have hxj : j = x := by simpa using hx
        have hwz : z = w := by simpa using hw
        rw [← hxj, ← hy, ← hwz]
        exact (List.chain'_cons.mp hlc).1

lemma pathConn_lt {α : Type} [Inhabited α] [LinearOrder α]
    (m : List (List α)) (t : α) (i j : ℕ) (h : PathConn m t i j) :
    i < m.length ∧ j < m.length := by
  obtain ⟨ks, h1, h2, hm, _⟩ := h
  constructor
  · exact hm i (List.mem_of_mem_head? (Option.mem_def.mpr h1))
  · exact hm j (List.mem_of_mem_getLast? (Option.mem_def.mpr h2))

lemma eqvGen_pathConn {α : Type} [Inhabited α] [LinearOrder α]
    (m : List (List α)) (t : α)
    (hsym : ∀ i j, i < m.length → j < m.length → mEntry m i j = mEntry m j i)
    (a b : ℕ)
    (h : Relation.EqvGen
      (fun x y => (x, y) ∈
        (upperPairs m.length).filter (fun pr => t ≤ mEntry m pr.1 pr.2)) a b) :
    a = b ∨ PathConn m t a b := by
  induction h with
  | rel x y hxy =>
    rw [List.mem_filter] at hxy
    have hup := (mem_upperPairs m.length x y).mp hxy.1
    have hT : t ≤ mEntry m x y := by simpa using hxy.2
    refine Or.inr ⟨[x, y], rfl, by simp, ?_, List.chain'_pair.mpr hT⟩
    intro z hz
    rcases List.mem_cons.mp hz with rfl | hz
    · omega
    · rcases List.mem_singleton.mp hz with rfl
      exact hup.2
  | refl x => exact Or.inl rfl
  | symm x y _ ih =>
    rcases ih with rfl | hp
    · exact Or.inl rfl
    · exact Or.inr (pathConn_symm m t hsym x y hp)
  | trans x y z _ _ ih1 ih2 =>
    rcases ih1 with rfl | hp1
    · exact ih2
    · rcases ih2 with rfl | hp2
      · exact Or.inr hp1
      · exact Or.inr (pathConn_trans m t x y z hp1 hp2)

lemma chain_eqvGen {α : Type} [Inhabited α] [LinearOrder α]
    (m : List (List α)) (t : α)
    (hsym : ∀ i j, i < m.length → j < m.length → mEntry m i j = mEntry m j i) :
    ∀ (ks : List ℕ) (i j : ℕ), ks.head? = some i → ks.getLast? = some j →
      (∀ x ∈ ks, x < m.length) →
      List.Chain' (fun a b => t ≤ mEntry m a b) ks →
      Relation.EqvGen
        (fun x y => (x, y) ∈
          (upperPairs m.length).filter (fun pr => t ≤ mEntry m pr.1 pr.2)) i j := by
  intro ks
  induction ks with
  | nil => intro i j h1 _ _ _; simp at h1
  | cons x ls ih =>
    intro i j h1 h2 hm hc
    have hx : x = i := by simpa using h1
    subst hx
    cases ls with
    | nil =>
      have hij : x = j := by simpa using h2
      rw [← hij]
      exact Relation.EqvGen.refl x
    | cons y ls' =>
      have hi : x < m.length := hm x (List.mem_cons_self _ _)
      have hyn : y < m.length :=
        hm y (List.mem_cons_of_mem x (List.mem_cons_self _ _))
      have hR : t ≤ mEntry m x y := (List.chain'_cons.mp hc).1
      have hstep : Relation.EqvGen
          (fun a b => (a, b) ∈
            (upperPairs m.length).filter (fun pr => t ≤ mEntry m pr.1 pr.2)) x y := by
        rcases lt_trichotomy x y with hlt | heq | hgt
        · exact Relation.EqvGen.rel x y (List.mem_filter.mpr
            ⟨(mem_upperPairs m.length x y).mpr ⟨hlt, hyn⟩, by simpa using hR⟩)
        · rw [heq]; exact Relation.EqvGen.refl y
        · have hR' : t ≤ mEntry m y x := by
            rw [hsym y x hyn hi]; exact hR
          exact Relation.EqvGen.symm _ _ (Relation.EqvGen.rel y x (List.mem_filter.mpr
            ⟨(mem_upperPairs m.length y x).mpr ⟨hgt, hi⟩, by simpa using hR'⟩))
      have htail := ih y j rfl
        (by rw [List.getLast?_cons_cons] at h2; exact h2)
        (fun z hz => hm z (List.mem_cons_of_mem x hz))
        (List.chain'_cons.mp hc).2
      exact hstep.trans _ _ _ htail

lemma rootD_iff_pathConn {α : Type} [Inhabited α] [LinearOrder α]
    (m : List (List α)) (t : α)
    (hsym : ∀ i j, i < m.length → j < m.length → mEntry m i j = mEntry m j i)
    (i j : ℕ) (hi : i < m.length) :
    (rootD (clusterUnionFind m t).parent i = rootD (clusterUnionFind m t).parent j ↔
      PathConn m t i j) := by
  obtain ⟨_, _, hc⟩ := clusterUnionFind_spec m t
  rw [hc i j]
  constructor
  · intro h
    rcases eqvGen_pathConn m t hsym i j h with rfl | hp
    · exact pathConn_refl m t i hi
    · exact hp
  · intro hp
    obtain ⟨ks, h1, h2, hm, hc'⟩ := hp
    exact chain_eqvGen m t hsym ks i j h1 h2 hm hc'

/-! ### C5 : the renumbering loop -/

lemma posIn_lt (x : ℕ) : ∀ ds : List ℕ, x ∈ ds → posIn ds x < ds.length := by
  intro ds
  induction ds with
  | nil => intro h; simp at h
  | cons d ds ih =>
    intro h
    rw [posIn]
    by_cases hd : d = x
    · rw [if_pos hd]; simp
    · rw [if_neg hd]
      have : x ∈ ds := by
        rcases List.mem_cons.mp h with h | h
        · exact absurd h.symm hd
        · exact h
      have := ih this
      simp only [List.length_cons]
      omega

lemma posIn_append_left (x : ℕ) (es : List ℕ) :
    ∀ ds : List ℕ, x ∈ ds → posIn (ds ++ es) x = posIn ds x := by
  intro ds
  induction ds with
  | nil => intro h; simp at h
  | cons d ds ih =>
    intro h
    rw [List.cons_append, posIn, posIn]
    by_cases hd : d = x
    · rw [if_pos hd, if_pos hd]
    · rw [if_neg hd, if_neg hd]
      have : x ∈ ds := by
        rcases List.mem_cons.mp h with h | h
        · exact absurd h.symm hd
        · exact h
      rw [ih this]

lemma posIn_append_right (x : ℕ) (es : List ℕ) :
    ∀ ds : List ℕ, x ∉ ds → posIn (ds ++ es) x = ds.length + posIn es x := by
  intro ds
  induction ds with
  | nil => intro _; simp
  | cons d ds ih =>
    intro h
    have hd : d ≠ x := fun hdx => h (hdx ▸ List.mem_cons_self d ds)
    rw [List.cons_append, posIn, if_neg hd,
      ih (fun hx => h (List.mem_cons_of_mem d hx))]
    simp only [List.length_cons]
    omega

lemma posIn_inj (x y : ℕ) : ∀ ds : List ℕ, ds.Nodup → x ∈ ds → y ∈ ds →
    posIn ds x = posIn ds y → x = y := by
  intro ds
  induction ds with
  | nil => intro _ h; simp at h
  | cons d ds ih =>
    intro hnd hx hy hp
    rw [posIn, posIn] at hp
    by_cases hdx : d = x
    · by_cases hdy : d = y
      · rw [← hdx, ← hdy]
      · rw [if_pos hdx, if_neg hdy] at hp
        omega
    · by_cases hdy : d = y
      · rw [if_neg hdx, if_pos hdy] at hp
        omega
      · rw [if_neg hdx, if_neg hdy] at hp
        have hx' : x ∈ ds := by
          rcases List.mem_cons.mp hx with h | h
          · exact absurd h.symm hdx
          · exact h
        have hy' : y ∈ ds := by
          rcases List.mem_cons.mp hy with h | h
          · exact absurd h.symm hdy
          · exact h
        exact ih (List.Nodup.of_cons hnd) hx' hy' (by omega)

lemma posIn_get : ∀ (ds : List ℕ), ds.Nodup → ∀ (k : ℕ) (h : k < ds.length),
    posIn ds (ds.get ⟨k, h⟩) = k := by
  intro ds
  induction ds with
  | nil => intro _ k h; simp at h
  | cons d ds ih =>
    intro hnd k h
    cases k with
    | zero => rw [posIn]; simp
    | succ k =>
      have hk : k < ds.length := by
        simp only [List.length_cons] at h
        omega
      have hget : (d :: ds).get ⟨k + 1, h⟩ = ds.get ⟨k, hk⟩ := rfl
      rw [hget, posIn]
      have hmem : ds.get ⟨k, hk⟩ ∈ ds := ds.get_mem k hk
      have hd : d ≠ ds.get ⟨k, hk⟩ := fun hdx =>
        (List.nodup_cons.mp hnd).1 (hdx ▸ hmem)
      rw [if_neg hd, ih (List.Nodup.of_cons hnd) k hk]

lemma firstOccurrences_concat {γ : Type} [DecidableEq γ] (l : List γ) (c : γ) :
    firstOccurrences (l ++ [c]) =
      if c ∈ firstOccurrences l then firstOccurrences l
      else firstOccurrences l ++ [c] := by
  unfold firstOccurrences
  rw [List.foldl_append, List.foldl_cons, List.foldl_nil]

lemma foldl_ins_extend {γ : Type} [DecidableEq γ] :
    ∀ (l acc : List γ), ∃ es,
      l.foldl (fun acc c => if c ∈ acc then acc else acc ++ [c]) acc = acc ++ es := by
  intro l
  induction l with
  | nil => intro acc; exact ⟨[], by simp⟩
  | cons c l ih =>
    intro acc
    rw [List.foldl_cons]
    by_cases hc : c ∈ acc
    · rw [if_pos hc]; exact ih acc
    · rw [if_neg hc]
      obtain ⟨es, hes⟩ := ih (acc ++ [c])
      exact ⟨c :: es, by rw [hes, List.append_assoc]; rfl⟩

lemma foldl_ins_map {γ δ : Type} [DecidableEq γ] [DecidableEq δ] (f : γ → δ) :
    ∀ (l acc : List γ),
      (∀ x ∈ acc ++ l, ∀ y ∈ acc ++ l, f x = f y → x = y) →
      (l.map f).foldl (fun a c => if c ∈ a then a else a ++ [c]) (acc.map f) =
        (l.foldl (fun a c => if c ∈ a then a else a ++ [c]) acc).map f := by
  intro l
  induction l with
  | nil => intro acc _; simp
  | cons c l ih =>
    intro acc hinj
    rw [List.map_cons, List.foldl_cons, List.foldl_cons]
    have hmemiff : f c ∈ acc.map f ↔ c ∈ acc := by
      constructor
      · intro h
        obtain ⟨x, hx, hfx⟩ := List.mem_map.mp h
        have : x = c := hinj x (List.mem_append_left _ hx) c
          (List.mem_append_right _ (List.mem_cons_self c l)) hfx
        rw [← this]; exact hx
      · intro h; exact List.mem_map.mpr ⟨c, h, rfl⟩
    by_cases hc : c ∈ acc
    · rw [if_pos hc, if_pos (hmemiff.mpr hc)]
      exact ih acc (fun x hx y hy => hinj x
        (by rcases List.mem_append.mp hx with h | h
            · exact List.mem_append_left _ h
            · exact List.mem_append_right _ (List.mem_cons_of_mem c h))
        y
        (by rcases List.mem_append.mp hy with h | h
            · exact List.mem_append_left _ h
            · exact List.mem_append_right _ (List.mem_cons_of_mem c h)))
    · rw [if_neg hc, if_neg (fun h => hc (hmemiff.mp h))]
      have := ih (acc ++ [c]) (fun x hx y hy => hinj x
        (by rcases List.mem_append.mp hx with h | h
            · rcases List.mem_append.mp h with h | h
              · exact List.mem_append_left _ h
              · rcases List.mem_singleton.mp h with rfl
                exact List.mem_append_right _ (List.mem_cons_self x l)
            · exact List.mem_append_right _ (List.mem_cons_of_mem c h))
        y
        (by rcases List.mem_append.mp hy with h | h
            · rcases List.mem_append.mp h with h | h
              · exact List.mem_append_left _ h
              · rcases List.mem_singleton.mp h with rfl
                exact List.mem_append_right _ (List.mem_cons_self y l)
            · exact List.mem_append_right _ (List.mem_cons_of_mem c h)))
      rw [← this, List.map_append]
      rfl

lemma lookupRoot_append (l₁ l₂ : List (ℕ × ℕ)) (r : ℕ) :
    lookupRoot (l₁ ++ l₂) r =
      (lookupRoot l₁ r).or (lookupRoot l₂ r) := by
  unfold lookupRoot
  rw [List.find?_append]
  cases h : l₁.find? fun pr => pr.1 = r with
  | none => simp
  | some p => simp

lemma lookupRoot_single_self (r c : ℕ) : lookupRoot [(r, c)] r = some c := by
  unfold lookupRoot
  rw [List.find?_cons_of_pos _ (by simp)]
  rfl

lemma lookupRoot_single_ne (r r' c : ℕ) (h : r' ≠ r) :
    lookupRoot [(r, c)] r' = none := by
  unfold lookupRoot
  rw [List.find?_cons_of_neg _ (by simpa using fun he => h he.symm)]
  rfl

lemma renumberStep_eq (s : RenumberState) (i : ℕ) :
    renumberStep s i =
      match lookupRoot s.rootToClusterId (s.uf.find i).1 with
      | some cid =>
          { uf := (s.uf.find i).2, rootToClusterId := s.rootToClusterId,
            nextId := s.nextId, clusterIds := s.clusterIds ++ [cid] }
      | none =>
          { uf := (s.uf.find i).2,
            rootToClusterId := s.rootToClusterId ++ [((s.uf.find i).1, s.nextId)],
            nextId := s.nextId + 1,
            clusterIds := s.clusterIds ++ [s.nextId] } := rfl

lemma renumber_fold (u0 : UnionFind) :
    ∀ (P Q : List ℕ) (s : RenumberState),
      UFInv s.uf →
      (∀ a, rootD s.uf.parent a = rootD u0.parent a) →
      (∀ r, lookupRoot s.rootToClusterId r =
        if r ∈ firstOccurrences (Q.map (rootD u0.parent)) then
          some (posIn (firstOccurrences (Q.map (rootD u0.parent))) r) else none) →
      s.nextId = (firstOccurrences (Q.map (rootD u0.parent))).length →
      s.clusterIds = (Q.map (rootD u0.parent)).map
        (posIn (firstOccurrences (Q.map (rootD u0.parent)))) →
      UFInv (P.foldl renumberStep s).uf ∧
      (∀ a, rootD (P.foldl renumberStep s).uf.parent a = rootD u0.parent a) ∧
      (∀ r, lookupRoot (P.foldl renumberStep s).rootToClusterId r =
        if r ∈ firstOccurrences ((Q ++ P).map (rootD u0.parent)) then
          some (posIn (firstOccurrences ((Q ++ P).map (rootD u0.parent))) r)
        else none) ∧
      (P.foldl renumberStep s).nextId =
        (firstOccurrences ((Q ++ P).map (rootD u0.parent))).length ∧
      (P.foldl renumberStep s).clusterIds = ((Q ++ P).map (rootD u0.parent)).map
        (posIn (firstOccurrences ((Q ++ P).map (rootD u0.parent)))) := by
  intro P
  induction P with
  | nil =>
    intro Q s h1 h2 h3 h4 h5
    simp only [List.foldl_nil, List.append_nil]
    exact ⟨h1, h2, h3, h4, h5⟩
  | cons i P ih =>
    intro Q s h1 h2 h3 h4 h5
    rw [List.foldl_cons]
    obtain ⟨hf1, _, _, hfinv, hfroot⟩ := find_spec s.uf h1 i
    have hr1 : (s.uf.find i).1 = rootD u0.parent i := by rw [hf1, h2]
    have happ : (Q ++ [i]) ++ P = Q ++ i :: P := by
      rw [List.append_assoc]; rfl
    have hkey : (Q ++ [i]).map (rootD u0.parent) =
        Q.map (rootD u0.parent) ++ [rootD u0.parent i] := by
      rw [List.map_append]; rfl
    by_cases hmem : rootD u0.parent i ∈ firstOccurrences (Q.map (rootD u0.parent))
    · have hDS' : firstOccurrences ((Q ++ [i]).map (rootD u0.parent)) =
          firstOccurrences (Q.map (rootD u0.parent)) := by
        rw [hkey, firstOccurrences_concat, if_pos hmem]
      have hstep : renumberStep s i =
          { uf := (s.uf.find i).2, rootToClusterId := s.rootToClusterId,
            nextId := s.nextId,
            clusterIds := s.clusterIds ++
              [posIn (firstOccurrences (Q.map (rootD u0.parent)))
                (rootD u0.parent i)] } := by
        rw [renumberStep_eq, hr1, h3, if_pos hmem]
      have hgoal := ih (Q ++ [i])
        { uf := (s.uf.find i).2, rootToClusterId := s.rootToClusterId,
          nextId := s.nextId,
          clusterIds := s.clusterIds ++
            [posIn (firstOccurrences (Q.map (rootD u0.parent)))
              (rootD u0.parent i)] }
        hfinv (fun a => (hfroot a).trans (h2 a))
        (by intro r'; rw [hDS']; exact h3 r')
        (by rw [hDS']; exact h4)
        (by show s.clusterIds ++ _ = _
            rw [hDS', hkey, List.map_append, h5]
            rfl)
      rw [happ] at hgoal
      rw [hstep]
      exact hgoal
    · have hDS' : firstOccurrences ((Q ++ [i]).map (rootD u0.parent)) =
          firstOccurrences (Q.map (rootD u0.parent)) ++ [rootD u0.parent i] := by
        rw [hkey, firstOccurrences_concat, if_neg hmem]
      have hstep : renumberStep s i =
          { uf := (s.uf.find i).2,
            rootToClusterId := s.rootToClusterId ++ [(rootD u0.parent i, s.nextId)],
            nextId := s.nextId + 1,
            clusterIds := s.clusterIds ++ [s.nextId] } := by
        rw [renumberStep_eq, hr1, h3, if_neg hmem]
      have h3' : ∀ r', lookupRoot
          (s.rootToClusterId ++ [(rootD u0.parent i, s.nextId)]) r' =
          if r' ∈ firstOccurrences ((Q ++ [i]).map (rootD u0.parent)) then
            some (posIn (firstOccurrences ((Q ++ [i]).map (rootD u0.parent))) r')
          else none := by
        intro r'
        rw [lookupRoot_append, h3 r', hDS']
        by_cases hr' : r' ∈ firstOccurrences (Q.map (rootD u0.parent))
        · rw [if_pos hr', if_pos (List.mem_append_left _ hr'),
            posIn_append_left r' _ _ hr']
          rfl
        · rw [if_neg hr']
          by_cases hrr : r' = rootD u0.parent i
          · rw [hrr, lookupRoot_single_self,
              if_pos (List.mem_append_right _ (List.mem_singleton.mpr rfl)),
              posIn_append_right _ _ _ hmem, h4]
            show some _ = some _
            rw [posIn, if_pos rfl]
            rfl
          · rw [lookupRoot_single_ne _ _ _ hrr, if_neg (by
              intro hc
              rcases List.mem_append.mp hc with hc | hc
              · exact hr' hc
              · exact hrr (List.mem_singleton.mp hc))]
            rfl
      have h5' : s.clusterIds ++ [s.nextId] =
          ((Q ++ [i]).map (rootD u0.parent)).map
            (posIn (firstOccurrences ((Q ++ [i]).map (rootD u0.parent)))) := by
        rw [hDS', hkey, List.map_append, h5]
        have hmapeq : (Q.map (rootD u0.parent)).map
            (posIn (firstOccurrences (Q.map (rootD u0.parent)) ++
              [rootD u0.parent i])) =
            (Q.map (rootD u0.parent)).map
              (posIn (firstOccurrences (Q.map (rootD u0.parent)))) := by
          refine List.map_congr_left ?_
          intro x hx
          exact posIn_append_left x _ _ ((mem_firstOccurrences _ x).mpr hx)
        rw [hmapeq]
        congr 1
        show [s.nextId] = [_]
        rw [h4, posIn_append_right _ _ _ hmem]
        show [_] = [_ + posIn [rootD u0.parent i] (rootD u0.parent i)]
        rw [posIn, if_pos rfl]
        rfl
      have hgoal := ih (Q ++ [i])
        { uf := (s.uf.find i).2,
          rootToClusterId := s.rootToClusterId ++ [(rootD u0.parent i, s.nextId)],
          nextId := s.nextId + 1,
          clusterIds := s.clusterIds ++ [s.nextId] }
        hfinv (fun a => (hfroot a).trans (h2 a))
        h3'
        (by show s.nextId + 1 = _
            rw [hDS', List.length_append, h4]
            rfl)
        h5'
      rw [happ] at hgoal
      rw [hstep]
      exact hgoal

lemma clusterIdeas_eq {α : Type} [Inhabited α] [LinearOrder α]
    (m : List (List α)) (t : α) :
    clusterIdeas m t =
      ((List.range m.length).map (rootD (clusterUnionFind m t).parent)).map
        (posIn (firstOccurrences
          ((List.range m.length).map (rootD (clusterUnionFind m t).parent)))) := by
  obtain ⟨hinv, _, _⟩ := clusterUnionFind_spec m t
  have h := renumber_fold (clusterUnionFind m t) (List.range m.length) []
    ⟨clusterUnionFind m t, [], 0, []⟩ hinv (fun a => rfl)
    (by intro r; simp [lookupRoot, firstOccurrences])
    (by simp [firstOccurrences])
    (by simp)
  rw [List.nil_append] at h
  exact h.2.2.2.2

lemma clusterIdeas_length {α : Type} [Inhabited α] [LinearOrder α]
    (m : List (List α)) (t : α) : (clusterIdeas m t).length = m.length := by
  rw [clusterIdeas_eq]
  simp

lemma clusterIdeas_getD {α : Type} [Inhabited α] [LinearOrder α]
    (m : List (List α)) (t : α) (i : ℕ) (hi : i < m.length) :
    (clusterIdeas m t).getD i 0 =
      posIn (firstOccurrences
          ((List.range m.length).map (rootD (clusterUnionFind m t).parent)))
        (rootD (clusterUnionFind m t).parent i) := by
  rw [clusterIdeas_eq, List.getD_eq_getElem?_getD, List.getElem?_map,
    List.getElem?_map, List.getElem?_range hi]
  rfl

lemma clusterIdeas_getD_eq_iff {α : Type} [Inhabited α] [LinearOrder α]
    (m : List (List α)) (t : α) (i j : ℕ) (hi : i < m.length) (hj : j < m.length) :
    ((clusterIdeas m t).getD i 0 = (clusterIdeas m t).getD j 0 ↔
      rootD (clusterUnionFind m t).parent i = rootD (clusterUnionFind m t).parent j) := by
  rw [clusterIdeas_getD m t i hi, clusterIdeas_getD m t j hj]
  constructor
  · intro h
    refine posIn_inj _ _ _ (firstOccurrences_nodup _) ?_ ?_ h
    · exact (mem_firstOccurrences _ _).mpr
        (List.mem_map.mpr ⟨i, List.mem_range.mpr hi, rfl⟩)
    · exact (mem_firstOccurrences _ _).mpr
        (List.mem_map.mpr ⟨j, List.mem_range.mpr hj, rfl⟩)
  · intro h
    rw [h]

lemma clusterIdeas_firstOccurrences {α : Type} [Inhabited α] [LinearOrder α]
    (m : List (List α)) (t : α) :
    firstOccurrences (clusterIdeas m t) =
      (firstOccurrences ((List.range m.length).map
          (rootD (clusterUnionFind m t).parent))).map
        (posIn (firstOccurrences
          ((List.range m.length).map (rootD (clusterUnionFind m t).parent)))) := by
  rw [clusterIdeas_eq]
  unfold firstOccurrences
  have h := foldl_ins_map
    (posIn (firstOccurrences
      ((List.range m.length).map (rootD (clusterUnionFind m t).parent))))
    ((List.range m.length).map (rootD (clusterUnionFind m t).parent)) []
    (by
      intro x hx y hy hf
      rw [List.nil_append] at hx hy
      exact posIn_inj x y _ (firstOccurrences_nodup _)
        ((mem_firstOccurrences _ _).mpr hx) ((mem_firstOccurrences _ _).mpr hy) hf)
  rw [List.map_nil] at h
  exact h

lemma clusterIdeas_contiguous {α : Type} [Inhabited α] [LinearOrder α]
    (m : List (List α)) (t : α) (c : ℕ) :
    c ∈ clusterIdeas m t ↔ c < (firstOccurrences (clusterIdeas m t)).length := by
  rw [clusterIdeas_firstOccurrences, clusterIdeas_eq, List.length_map]
  constructor
  · intro h
    obtain ⟨x, hx, rfl⟩ := List.mem_map.mp h
    exact posIn_lt x _ ((mem_firstOccurrences _ _).mpr hx)
  · intro h
    refine List.mem_map.mpr ⟨(firstOccurrences
      ((List.range m.length).map (rootD (clusterUnionFind m t).parent))).get
        ⟨c, h⟩, ?_, ?_⟩
    · exact (mem_firstOccurrences _ _).mp (List.get_mem _ c h)
    · exact posIn_get _ (firstOccurrences_nodup _) c h

lemma clusterIdeas_encounter {α : Type} [Inhabited α] [LinearOrder α]
    (m : List (List α)) (t : α) (k : ℕ) (hk : k < m.length) :
    (clusterIdeas m t).getD k 0 ∈ (clusterIdeas m t).take k ∨
    (clusterIdeas m t).getD k 0 =
      (firstOccurrences ((clusterIdeas m t).take k)).length := by
  have hgd := clusterIdeas_getD m t k hk
  have htake : (clusterIdeas m t).take k =
      (((List.range m.length).map (rootD (clusterUnionFind m t).parent)).take k).map
        (posIn (firstOccurrences
          ((List.range m.length).map (rootD (clusterUnionFind m t).parent)))) := by
    rw [clusterIdeas_eq, List.map_take]
  by_cases hmem : rootD (clusterUnionFind m t).parent k ∈
      ((List.range m.length).map (rootD (clusterUnionFind m t).parent)).take k
  · left
    rw [hgd, htake]
    exact List.mem_map.mpr ⟨_, hmem, rfl⟩
  · right
    rw [hgd, htake]
    have hfom : firstOccurrences
        ((((List.range m.length).map (rootD (clusterUnionFind m t).parent)).take k).map
          (posIn (firstOccurrences
            ((List.range m.length).map (rootD (clusterUnionFind m t).parent))))) =
        (firstOccurrences
          (((List.range m.length).map (rootD (clusterUnionFind m t).parent)).take k)).map
          (posIn (firstOccurrences
            ((List.range m.length).map (rootD (clusterUnionFind m t).parent)))) := by
      unfold firstOccurrences
      have h := foldl_ins_map
        (posIn (firstOccurrences
          ((List.range m.length).map (rootD (clusterUnionFind m t).parent))))
        (((List.range m.length).map (rootD (clusterUnionFind m t).parent)).take k) []
        (by
          intro x hx y hy hf
          rw [List.nil_append] at hx hy
          exact posIn_inj x y _ (firstOccurrences_nodup _)
            ((mem_firstOccurrences _ _).mpr (List.mem_of_mem_take hx))
            ((mem_firstOccurrences _ _).mpr (List.mem_of_mem_take hy)) hf)
      rw [List.map_nil] at h
      exact h
    rw [hfom, List.length_map]
    have hlen : k < ((List.range m.length).map
        (rootD (clusterUnionFind m t).parent)).length := by
      simp [hk]
    have hgetk : ((List.range m.length).map
        (rootD (clusterUnionFind m t).parent)).get ⟨k, hlen⟩ =
        rootD (clusterUnionFind m t).parent k := by
      simp
    have hsplit : (List.range m.length).map (rootD (clusterUnionFind m t).parent) =
        (((List.range m.length).map (rootD (clusterUnionFind m t).parent)).take k) ++
        (rootD (clusterUnionFind m t).parent k ::
          (((List.range m.length).map (rootD (clusterUnionFind m t).parent)).drop (k + 1))) := by
      conv_lhs => rw [← List.take_append_drop k
        ((List.range m.length).map (rootD (clusterUnionFind m t).parent))]
      rw [List.drop_eq_get_cons hlen, hgetk]
    have hnotDA : rootD (clusterUnionFind m t).parent k ∉
        firstOccurrences (((List.range m.length).map
          (rootD (clusterUnionFind m t).parent)).take k) :=
      fun hc => hmem ((mem_firstOccurrences _ _).mp hc)
    have hDS : firstOccurrences
        ((List.range m.length).map (rootD (clusterUnionFind m t).parent)) =
        (firstOccurrences (((List.range m.length).map
            (rootD (clusterUnionFind m t).parent)).take k) ++
          [rootD (clusterUnionFind m t).parent k]) ++
        Classical.choose (foldl_ins_extend
          ((((List.range m.length).map (rootD (clusterUnionFind m t).parent)).drop (k + 1)))
          (firstOccurrences (((List.range m.length).map
              (rootD (clusterUnionFind m t).parent)).take k) ++
            [rootD (clusterUnionFind m t).parent k])) := by
      conv_lhs => rw [hsplit]
      show firstOccurrences _ = _
      unfold firstOccurrences
      rw [List.foldl_append, List.foldl_cons]
      have hins : (if rootD (clusterUnionFind m t).parent k ∈
          (((List.range m.length).map (rootD (clusterUnionFind m t).parent)).take k).foldl
            (fun acc c => if c ∈ acc then acc else acc ++ [c]) [] then
          (((List.range m.length).map (rootD (clusterUnionFind m t).parent)).take k).foldl
            (fun acc c => if c ∈ acc then acc else acc ++ [c]) []
        else (((List.range m.length).map (rootD (clusterUnionFind m t).parent)).take k).foldl
            (fun acc c => if c ∈ acc then acc else acc ++ [c]) [] ++
          [rootD (clusterUnionFind m t).parent k]) =
          firstOccurrences (((List.range m.length).map
              (rootD (clusterUnionFind m t).parent)).take k) ++
            [rootD (clusterUnionFind m t).parent k] := by
        have hnotDA' : rootD (clusterUnionFind m t).parent k ∉
            (((List.range m.length).map (rootD (clusterUnionFind m t).parent)).take k).foldl
              (fun acc c => if c ∈ acc then acc else acc ++ [c]) [] := hnotDA
        rw [if_neg hnotDA']
        rfl
      rw [hins]
      exact Classical.choose_spec (foldl_ins_extend _ _)
    rw [hDS, posIn_append_left _ _ _
        (List.mem_append_right _ (List.mem_singleton.mpr rfl)),
      posIn_append_right _ _ _ hnotDA, posIn, if_pos rfl]
    rfl

/-- **C5**: For every similarity matrix `m` (symmetric on in-range indices, as
similarity matrices are) and threshold `t`, `clusterIdeas` assigns one cluster
id per index; two in-range indices `i`, `j` receive the same cluster id iff
there is a path `i = k0, k1, ..., kn = j` with every adjacent pair's matrix
entry at least `t`; the returned ids are contiguous integers `0..K-1` (`K` the
number of distinct ids), each new id is introduced in encounter order (an
index's id either occurred earlier or equals the number of distinct ids seen so
far), so index 0 always receives cluster id 0. -/
theorem C5_cluster_spec {α : Type} [Inhabited α] [LinearOrder α]
    (m : List (List α)) (t : α)
    (hsym : ∀ i j, i < m.length → j < m.length → mEntry m i j = mEntry m j i) :
    (clusterIdeas m t).length = m.length ∧
    (∀ i j, i < m.length → j < m.length →
      ((clusterIdeas m t).getD i 0 = (clusterIdeas m t).getD j 0 ↔
        PathConn m t i j)) ∧
    (∀ c, c ∈ clusterIdeas m t ↔
      c < (firstOccurrences (clusterIdeas m t)).length) ∧
    (∀ k, k < m.length →
      (clusterIdeas m t).getD k 0 ∈ (clusterIdeas m t).take k ∨
      (clusterIdeas m t).getD k 0 =
        (firstOccurrences ((clusterIdeas m t).take k)).length) ∧
    (0 < m.length → (clusterIdeas m t).getD 0 0 = 0) := by
  refine ⟨clusterIdeas_length m t, ?_, clusterIdeas_contiguous m t,
    fun k hk => clusterIdeas_encounter m t k hk, ?_⟩
  · intro i j hi hj
    rw [clusterIdeas_getD_eq_iff m t i j hi hj]
    exact rootD_iff_pathConn m t hsym i j hi
  · intro h0
    rcases clusterIdeas_encounter m t 0 h0 with hc | hc
    · simp at hc
    · rw [hc]
      rfl

/-- Witness for C5 on the concrete 2 x 2 matrix [[10, 9], [9, 10]] with
threshold 8: every part of the specification holds there. -/
theorem C5_cluster_spec_witness :
    (∀ i j, i < ([[(10:ℚ), 9], [9, 10]] : List (List ℚ)).length →
      j < ([[(10:ℚ), 9], [9, 10]] : List (List ℚ)).length →
      mEntry [[(10:ℚ), 9], [9, 10]] i j = mEntry [[(10:ℚ), 9], [9, 10]] j i) ∧
    ((clusterIdeas [[(10:ℚ), 9], [9, 10]] 8).length =
      ([[(10:ℚ), 9], [9, 10]] : List (List ℚ)).length ∧
    (∀ i j, i < ([[(10:ℚ), 9], [9, 10]] : List (List ℚ)).length →
      j < ([[(10:ℚ), 9], [9, 10]] : List (List ℚ)).length →
      ((clusterIdeas [[(10:ℚ), 9], [9, 10]] 8).getD i 0 =
          (clusterIdeas [[(10:ℚ), 9], [9, 10]] 8).getD j 0 ↔
        PathConn [[(10:ℚ), 9], [9, 10]] 8 i j)) ∧
    (∀ c, c ∈ clusterIdeas [[(10:ℚ), 9], [9, 10]] 8 ↔
      c < (firstOccurrences (clusterIdeas [[(10:ℚ), 9], [9, 10]] 8)).length) ∧
    (∀ k, k < ([[(10:ℚ), 9], [9, 10]] : List (List ℚ)).length →
      (clusterIdeas [[(10:ℚ), 9], [9, 10]] 8).getD k 0 ∈
        (clusterIdeas [[(10:ℚ), 9], [9, 10]] 8).take k ∨
      (clusterIdeas [[(10:ℚ), 9], [9, 10]] 8).getD k 0 =
        (firstOccurrences ((clusterIdeas [[(10:ℚ), 9], [9, 10]] 8).take k)).length) ∧
    (0 < ([[(10:ℚ), 9], [9, 10]] : List (List ℚ)).length →
      (clusterIdeas [[(10:ℚ), 9], [9, 10]] 8).getD 0 0 = 0)) := by
  have hs : ∀ i j, i < ([[(10:ℚ), 9], [9, 10]] : List (List ℚ)).length →
      j < ([[(10:ℚ), 9], [9, 10]] : List (List ℚ)).length →
      mEntry [[(10:ℚ), 9], [9, 10]] i j = mEntry [[(10:ℚ), 9], [9, 10]] j i := by
    intro i j hi hj
    have hi2 : i < 2 := hi
    have hj2 : j < 2 := hj
    interval_cases i <;> interval_cases j <;> rfl
  exact ⟨hs, C5_cluster_spec [[(10:ℚ), 9], [9, 10]] 8 hs⟩

end Spec2Proof
